import Mathlib

/-!
Verification of the `ambulo` automatic-differentiation engine and its tensor
collaborator, as a shallow embedding in Lean 4.

The computation graph is embedded as an arena (a list of nodes indexed by
position); operand links `inputs` and consumer back-references `outputs` are
arena indices, mirroring `src/ambulo/node.py`.  The Session/workspace of
`src/ambulo/session.py` is a pair of association maps keyed by node index.
Recursive traversals of the graph are given a fuel parameter bounding the
recursion depth (the source precondition is that the graph is a DAG, so every
terminating run of the source corresponds to a large-enough fuel).
Numbers are modelled as real numbers; `math.log`, `math.sin`, `math.cos`
become `Real.log`, `Real.sin`, `Real.cos`.
-/

namespace Ambulo

noncomputable section

/-- The error outcomes of the Python source: `VarError` (node.py),
`SessionError` (session.py), `TensorError` (linalg.py), plus the builtin
exceptions that the source can also raise (`ValueError`, `TypeError`,
`IndexError`, `ZeroDivisionError`, `AttributeError`), and exhaustion of the
recursion-depth fuel. -/
inductive Err where
  | varErr (msg : String)
  | sessionErr (msg : String)
  | tensorErr (msg : String)
  | valueErr (msg : String)
  | typeErr
  | indexErr
  | zeroDivErr
  | attrErr
  | fuelErr
  deriving DecidableEq

/-! ## Workspace (Session), from src/ambulo/session.py -/

/-- A workspace map: association list keyed by node index, with
`insertW` giving dictionary overwrite semantics. -/
abbrev Workspace := List (Nat × ℝ)

/-- Dictionary assignment `w[n] = x`: unconditional overwrite. -/
def insertW (w : Workspace) (n : Nat) (x : ℝ) : Workspace :=
  (n, x) :: List.filter (fun p => p.1 != n) w

/-- Dictionary lookup `w[n]` as an option. -/
def lookupW (w : Workspace) (n : Nat) : Option ℝ :=
  List.lookup n w

/-- Dictionary containment `n in w`. -/
def memW (w : Workspace) (n : Nat) : Bool :=
  List.any w (fun p => p.1 == n)

/-- `Session`: holds the two independent maps, computed values and computed
deltas (src/ambulo/session.py lines 20-28). -/
structure Session where
  values : Workspace
  deltas : Workspace

def Session.set_value (s : Session) (n : Nat) (x : ℝ) : Session :=
  { s with values := insertW s.values n x }

def Session.set_delta (s : Session) (n : Nat) (x : ℝ) : Session :=
  { s with deltas := insertW s.deltas n x }

def Session.get_value (s : Session) (n : Nat) : Except Err ℝ :=
  match lookupW s.values n with
  | some v => .ok v
  | none => .error (.sessionErr ("Cannot find value for node " ++ toString n))

def Session.get_delta (s : Session) (n : Nat) : Except Err ℝ :=
  match lookupW s.deltas n with
  | some v => .ok v
  | none => .error (.sessionErr ("Cannot find delta for node " ++ toString n))

def Session.has_value (s : Session) (n : Nat) : Bool :=
  memW s.values n

def Session.has_delta (s : Session) (n : Nat) : Bool :=
  memW s.deltas n

/-! ## Elementary functions `f` / `df` / `di` per node variant
(src/ambulo/node.py lines 214-356, src/ambulo/ops.py lines 16-26). -/

def Id.f (x : ℝ) : ℝ := x

def Id.df (x dx : ℝ) : ℝ := dx

def Id.di (x : ℝ) (vo_bars : List ℝ) : List ℝ :=
  let v_bar := vo_bars.sum
  [v_bar]

def Ln.f (x : ℝ) : ℝ := Real.log x

def Ln.df (x dx : ℝ) : ℝ := dx / x

def Ln.di (x : ℝ) (vo_bars : List ℝ) : List ℝ :=
  let v_bar := vo_bars.sum
  [v_bar / x]

def Sin.f (x : ℝ) : ℝ := Real.sin x

def Sin.df (x dx : ℝ) : ℝ := Real.cos x * dx

def Sin.di (x : ℝ) (vo_bars : List ℝ) : List ℝ :=
  let v_bar := vo_bars.sum
  [v_bar * Real.cos x]

def Add.f (x y : ℝ) : ℝ := x + y

def Add.df (x y dx dy : ℝ) : ℝ := dx + dy

def Add.di (x y : ℝ) (vo_bars : List ℝ) : List ℝ :=
  let v_bar := vo_bars.sum
  [v_bar, v_bar]

def Sub.f (x y : ℝ) : ℝ := x - y

def Sub.df (x y dx dy : ℝ) : ℝ := dx - dy

def Sub.di (x y : ℝ) (vo_bars : List ℝ) : List ℝ :=
  let v_bar := vo_bars.sum
  [v_bar, -v_bar]

def Mul.f (x y : ℝ) : ℝ := x * y

def Mul.df (x y dx dy : ℝ) : ℝ := x * dy + dx * y

def Mul.di (x y : ℝ) (vo_bars : List ℝ) : List ℝ :=
  let v_bar := vo_bars.sum
  [y * v_bar, x * v_bar]

def Div.f (x y : ℝ) : ℝ := x / y

def Div.df (x y dx dy : ℝ) : ℝ := (dx * y - x * dy) / y ^ 2

def Div.di (x y : ℝ) (vo_bars : List ℝ) : List ℝ :=
  let v_bar := vo_bars.sum
  [v_bar / y, v_bar * (-x / y ^ 2)]

def Const.f (value : ℝ) (args : List ℝ) : ℝ := value

def Const.df (args : List ℝ) : ℝ := 0

/-! ## The node graph as an arena -/

/-- The node variants of node.py (Var, Id, Ln, Sin, Add, Sub, Mul, Div) and
ops.py (Const). -/
inductive Op where
  | var (nm : String)
  | const (c : ℝ)
  | id
  | ln
  | sin
  | add
  | sub
  | mul
  | div

/-- The compound (non-leaf) node variants: everything except the externally
bound `Var` and the fixed-value `Const`. -/
def isCompound : Op → Bool
  | .var _ => false
  | .const _ => false
  | _ => true

/-- One graph node: its variant, its ordered operand indices, the
back-references to its consumers, and its optional display name. -/
structure GNode where
  op : Op
  inputs : List Nat
  outputs : List Nat
  name : Option String

/-- The arena of nodes; a node's identity is its index. -/
abbrev Graph := List GNode

def listModify {α : Type} : List α → Nat → (α → α) → List α
  | [], _, _ => []
  | a :: t, 0, f => f a :: t
  | a :: t, n + 1, f => a :: listModify t n f

/-- `Node.__init__` (src/ambulo/node.py lines 146-152): append the new node to
each operand's `outputs` (once per occurrence, in operand order), then record
the operands as `inputs` and start with an empty `outputs` list.  Returns the
extended arena and the new node's index. -/
def mkNode (g : Graph) (op : Op) (inputs : List Nat) (name : Option String) :
    Graph × Nat :=
  let newId := List.length g
  let g1 := inputs.foldl
    (fun acc i => listModify acc i (fun nd => { nd with outputs := nd.outputs ++ [newId] })) g
  (g1 ++ [⟨op, inputs, [], name⟩], newId)

/-- Python `list.index(x)`: the first position at which `x` occurs. -/
def pyIndex {α : Type} [BEq α] : List α → α → Option Nat
  | [], _ => none
  | a :: t, x => if a == x then some 0 else (pyIndex t x).map (· + 1)

/-- Dispatch of the per-variant value function `f` on an argument list,
checking arity as Python call resolution would. -/
def opF : Op → List ℝ → Except Err ℝ
  | .var _, _ => .error .attrErr
  | .const c, args => .ok (Const.f c args)
  | .id, [x] => .ok (Id.f x)
  | .ln, [x] => .ok (Ln.f x)
  | .sin, [x] => .ok (Sin.f x)
  | .add, [x, y] => .ok (Add.f x y)
  | .sub, [x, y] => .ok (Sub.f x y)
  | .mul, [x, y] => .ok (Mul.f x y)
  | .div, [x, y] => .ok (Div.f x y)
  | _, _ => .error .typeErr

/-- Dispatch of the per-variant local derivative `df` on operand values and
operand tangents. -/
def opDf : Op → List ℝ → List ℝ → Except Err ℝ
  | .var _, _, _ => .error .attrErr
  | .const _, args, _ => .ok (Const.df args)
  | .id, [x], [dx] => .ok (Id.df x dx)
  | .ln, [x], [dx] => .ok (Ln.df x dx)
  | .sin, [x], [dx] => .ok (Sin.df x dx)
  | .add, [x, y], [dx, dy] => .ok (Add.df x y dx dy)
  | .sub, [x, y], [dx, dy] => .ok (Sub.df x y dx dy)
  | .mul, [x, y], [dx, dy] => .ok (Mul.df x y dx dy)
  | .div, [x, y], [dx, dy] => .ok (Div.df x y dx dy)
  | _, _, _ => .error .typeErr

/-- Dispatch of the per-variant reverse-mode rule `di` on operand values and
the incoming per-edge adjoint contributions. -/
def opDi : Op → List ℝ → List ℝ → Except Err (List ℝ)
  | .id, [x], vb => .ok (Id.di x vb)
  | .ln, [x], vb => .ok (Ln.di x vb)
  | .sin, [x], vb => .ok (Sin.di x vb)
  | .add, [x, y], vb => .ok (Add.di x y vb)
  | .sub, [x, y], vb => .ok (Sub.di x y vb)
  | .mul, [x, y], vb => .ok (Mul.di x y vb)
  | .div, [x, y], vb => .ok (Div.di x y vb)
  | _, _, _ => .error .attrErr

/-- Environment of variable bindings, the `**env` keyword mapping. -/
abbrev Env := List (String × ℝ)

/-- `BaseNode.eval` / `Node.eval` (src/ambulo/node.py lines 154-157, 201-205):
`Var` reads its binding from the environment (a `VarError` if absent), a
compound node evaluates its operands in order and applies `f`. -/
def evalG : Nat → Graph → Env → Nat → Except Err ℝ
  | 0, _, _, _ => .error .fuelErr
  | fuel + 1, g, env, n =>
    match g[n]? with
    | none => .error .indexErr
    | some nd =>
      match nd.op with
      | .var nm =>
        match List.lookup nm env with
        | some v => .ok v
        | none => .error (.varErr ("Cannot evaluate variable " ++ nm))
      | op => do
        let vs ← nd.inputs.mapM (evalG fuel g env)
        opF op vs

/-- Forward-tangent environment: each variable is bound to a `Val` pair
`(value, tangent)`. -/
abbrev FwdEnv := List (String × (ℝ × ℝ))

/-- `Node._fwd` / `Var._fwd` (src/ambulo/node.py lines 159-165, 207-211):
recursively obtain the operand `Val` pairs, then pair `f` of the values with
`df` of the values and tangents. -/
def fwdG : Nat → Graph → FwdEnv → Nat → Except Err (ℝ × ℝ)
  | 0, _, _, _ => .error .fuelErr
  | fuel + 1, g, env, n =>
    match g[n]? with
    | none => .error .indexErr
    | some nd =>
      match nd.op with
      | .var nm =>
        match List.lookup nm env with
        | some val => .ok val
        | none => .error (.varErr ("Cannot evaluate variable " ++ nm))
      | op => do
        let vals ← nd.inputs.mapM (fwdG fuel g env)
        let vs := vals.map Prod.fst
        let dvs := vals.map Prod.snd
        let v ← opF op vs
        let dv ← opDf op vs dvs
        .ok (v, dv)

/-- `Node.back` and the `Id.back` terminal override
(src/ambulo/node.py lines 167-173 and 214-222): a consumer-less `Id` reads the
pre-seeded adjoint of its name from the environment; otherwise the node
evaluates its operand values, fetches for each registered consumer the
component of that consumer's `back` result at `out.inputs.index(self)` (the
FIRST position at which this node occurs among the consumer's operands), and
applies its own `di` rule to those incoming contributions. -/
def backG : Nat → Graph → Env → Nat → Except Err (List ℝ)
  | 0, _, _, _ => .error .fuelErr
  | fuel + 1, g, env, n =>
    match g[n]? with
    | none => .error .indexErr
    | some nd =>
      if (nd.op matches .id) && nd.outputs.isEmpty then
        match nd.name with
        | some nm =>
          match List.lookup nm env with
          | some v => .ok [v]
          | none => .error (.varErr ("Cannot evaluate output variable " ++ nm))
        | none => .error (.varErr "Cannot evaluate output variable")
      else do
        let inVals ← nd.inputs.mapM (evalG (fuel + 1) g env)
        let outIdx ← nd.outputs.mapM (fun o => do
          match g[o]? with
          | none => .error .indexErr
          | some ond =>
            match pyIndex ond.inputs n with
            | some i => Except.ok (o, i)
            | none => .error (.valueErr "not in list"))
        let voBars ← outIdx.mapM (fun oi => do
          let l ← backG fuel g env oi.1
          match l[oi.2]? with
          | some b => Except.ok b
          | none => .error .indexErr)
        opDi nd.op inVals voBars

/-! ## The Session-based evaluation protocol of the mature revision.

The mature revision's `Node.eval(sess)` / `Node.do_df(sess)` are not under
src/: src/ambulo/node.py holds the older environment-based protocol, while
src/ambulo/ops.py (the `Id.do_df` override, the `label=` constructor calls)
and tests/test_integration.py call the Session API whose base implementation
is missing.  These two definitions are therefore modelled from the spec. -/

/-- Modelled from the spec: the memoized `Node.eval(workspace)` of the mature
revision (spec section 4.2), whose implementation is missing from src/.  For a
compound node: check `has_value` before recursing; if present return the
cached value; otherwise evaluate each operand recursively in operand order,
apply the variant's `f`, store the result via `set_value`, and return it.
`Var` reads its value directly from the workspace, failing with an
unbound-variable error if absent; `Const` returns its fixed value and performs
no caching. -/
def evalS : Nat → Graph → Nat → Session → Except Err (ℝ × Session)
  | 0, _, _, _ => .error .fuelErr
  | fuel + 1, g, n, s =>
    match g[n]? with
    | none => .error .indexErr
    | some nd =>
      match nd.op with
      | .var nm =>
        match lookupW s.values n with
        | some v => .ok (v, s)
        | none => .error (.varErr ("Cannot evaluate variable " ++ nm))
      | .const c => .ok (c, s)
      | op =>
        if s.has_value n then
          (s.get_value n).map (fun v => (v, s))
        else do
          let r ← nd.inputs.foldlM
            (fun (acc : List ℝ × Session) i => do
              let vs ← evalS fuel g i acc.2
              pure (acc.1 ++ [vs.1], vs.2))
            (([] : List ℝ), s)
          let v ← opF op r.1
          .ok (v, r.2.set_value n v)

/-- Modelled from the spec: the `backprop`/`do_df(workspace)` of the mature
revision (spec section 4.4), whose base implementation is missing from src/
(only the terminal override `Id.do_df`, src/ambulo/ops.py lines 29-34, is
present; its terminal branch is reproduced here and, per the spec, applies to
any node with no consumers).  A node with no consumers returns its pre-seeded
delta directly from the workspace.  Otherwise, with memoization over the delta
map, it sums one contribution per registered consumer: the consumer's own
recursively-computed adjoint is placed in the tangent slot at the position of
this node among the consumer's operands, all other slots zeroed, and the
consumer's `df` is evaluated on its operand values and that one-hot tangent
vector. -/
def doDf : Nat → Graph → Nat → Session → Except Err (ℝ × Session)
  | 0, _, _, _ => .error .fuelErr
  | fuel + 1, g, n, s =>
    match g[n]? with
    | none => .error .indexErr
    | some nd =>
      if nd.outputs.isEmpty then
        (s.get_delta n).map (fun d => (d, s))
      else if s.has_delta n then
        (s.get_delta n).map (fun d => (d, s))
      else do
        let r ← nd.outputs.foldlM
          (fun (acc : List ℝ × Session) o => do
            match g[o]? with
            | none => .error .indexErr
            | some ond => do
              let ob ← doDf fuel g o acc.2
              let vs ← ond.inputs.foldlM
                (fun (acc2 : List ℝ × Session) i => do
                  let v ← evalS fuel g i acc2.2
                  pure (acc2.1 ++ [v.1], v.2))
                (([] : List ℝ), ob.2)
              match pyIndex ond.inputs n with
              | none => .error (.valueErr "not in list")
              | some i => do
                let onehot := (List.range ond.inputs.length).map
                  (fun k => if k = i then ob.1 else 0)
                let contrib ← opDf ond.op vs.1 onehot
                pure (acc.1 ++ [contrib], vs.2))
          (([] : List ℝ), s)
        let total := r.1.sum
        .ok (total, r.2.set_delta n total)

/-! ## The worked example graph of tests/test_integration.py:
`y = ln(x1) + x1*x2 - sin(x2)` with named intermediates. -/

/-- The integration-test graph, built with `mkNode` in construction order:
x1, x2, vn1 = Id(x1), v0 = Id(x2), v1 = Ln(vn1), v2 = Mul(vn1, v0),
v3 = Sin(v0), v4 = Add(v1, v2), v5 = Sub(v4, v3), y = Id(v5). -/
def exGraph : Graph :=
  let g0 : Graph := [⟨.var "x1", [], [], some "x1"⟩, ⟨.var "x2", [], [], some "x2"⟩]
  let g1 := (mkNode g0 .id [0] (some "vn1")).1
  let g2 := (mkNode g1 .id [1] (some "v0")).1
  let g3 := (mkNode g2 .ln [2] (some "v1")).1
  let g4 := (mkNode g3 .mul [2, 3] (some "v2")).1
  let g5 := (mkNode g4 .sin [3] (some "v3")).1
  let g6 := (mkNode g5 .add [4, 5] (some "v4")).1
  let g7 := (mkNode g6 .sub [7, 6] (some "v5")).1
  (mkNode g7 .id [8] (some "y")).1

/-- The same arena written out literally. -/
def exGraphLit : Graph :=
  [⟨.var "x1", [], [2], some "x1"⟩,
   ⟨.var "x2", [], [3], some "x2"⟩,
   ⟨.id, [0], [4, 5], some "vn1"⟩,
   ⟨.id, [1], [5, 6], some "v0"⟩,
   ⟨.ln, [2], [7], some "v1"⟩,
   ⟨.mul, [2, 3], [7], some "v2"⟩,
   ⟨.sin, [3], [8], some "v3"⟩,
   ⟨.add, [4, 5], [8], some "v4"⟩,
   ⟨.sub, [7, 6], [9], some "v5"⟩,
   ⟨.id, [8], [], some "y"⟩]

/-- The duplicate-operand graph exercising reverse mode on a node used twice
by the same consumer: m = Id(Var a), s = Sub(m, m), y = Id(s, name y). -/
def dupGraph : Graph :=
  let g0 : Graph := [⟨.var "a", [], [], some "a"⟩]
  let g1 := (mkNode g0 .id [0] (some "m")).1
  let g2 := (mkNode g1 .sub [1, 1] (some "s")).1
  (mkNode g2 .id [2] (some "y")).1

end

/-! ## The tensor collaborator (src/ambulo/linalg.py, src/ambulo/utils.py) -/

/-- A nested Python sequence: a number, or a list of nested sequences. -/
inductive Raw (α : Type) where
  | leaf (a : α)
  | node (l : List (Raw α))

mutual

/-- `utils.flatten`: all leaves of a nested sequence, depth first. -/
def Raw.flatten {α : Type} : Raw α → List α
  | .leaf a => [a]
  | .node l => flattenL l

def flattenL {α : Type} : List (Raw α) → List α
  | [] => []
  | r :: rs => r.flatten ++ flattenL rs

end

/-- `utils.product`: the product of the elements (the source raises on an
empty vector; callers below guard that case explicitly). -/
def prodL (l : List Nat) : Nat := l.foldl (· * ·) 1

/-- `utils.get_seq_dims`, first phase: walk down the chain of first elements,
collecting the length at each level, stopping at a non-sequence or at an
empty sequence. -/
def firstChainDims {α : Type} : Raw α → List Nat
  | .leaf _ => []
  | .node l =>
    match l with
    | [] => [0]
    | r :: _ => l.length :: firstChainDims r

mutual

/-- `utils.seq_has_dims`: verify a nested sequence against dimensions `dims`;
with `dims` exhausted anything passes, and Python `len` of a non-sequence is a
`TypeError`.  The `all(...)` over the children short-circuits at the first
failing child, as the Python generator does. -/
def seqHasDims {α : Type} : Raw α → List Nat → Except Err Bool
  | _, [] => .ok true
  | .leaf _, _ :: _ => .error .typeErr
  | .node l, d :: ds =>
    if l.length ≠ d then .ok false
    else seqHasDimsL l ds

def seqHasDimsL {α : Type} : List (Raw α) → List Nat → Except Err Bool
  | [], _ => .ok true
  | r :: rs, ds => do
    let b ← seqHasDims r ds
    if b then seqHasDimsL rs ds else .ok false

end

/-- `utils.get_seq_dims`: first-chain dimensions, then the squareness check;
a failed check is a `ValueError`. -/
def getSeqDims {α : Type} (r : Raw α) : Except Err (List Nat) := do
  let dims := firstChainDims r
  let ok ← seqHasDims r dims
  if ok then .ok dims else .error (.valueErr "Sequence dimensions are not square")

/-- `utils.get_idx_multipliers`: starting from the product of all dimensions,
divide by each dimension in turn and yield the running value.  Python `//`
raises `ZeroDivisionError` on a zero dimension, and `product` raises
`ValueError` on an empty shape. -/
def getIdxMultipliers (dims : List Nat) : Except Err (List Nat) :=
  if dims.isEmpty then
    .error (.valueErr "Cannot determine product of vector with no elements")
  else go (prodL dims) dims
where
  go : Nat → List Nat → Except Err (List Nat)
    | _, [] => .ok []
    | m, d :: ds =>
      if d = 0 then .error .zeroDivErr
      else do
        let rest ← go (m / d) ds
        .ok (m / d :: rest)

/-- The suffix products `(d2*...*dr, d3*...*dr, ..., 1)`, the value
`getIdxMultipliers` yields on positive dimensions. -/
def spMuls : List Nat → List Nat
  | [] => []
  | _ :: rest => prodL rest :: spMuls rest

/-- `utils.dot`: raises `ValueError` on different lengths or empty vectors. -/
def dotE (x y : List Nat) : Except Err Nat :=
  if x.length ≠ y.length then
    .error (.valueErr "Cannot take dot product of vectors with different dimensions")
  else if x.length = 0 then
    .error (.valueErr "Cannot take dot product of vectors with no elements")
  else .ok ((List.zipWith (· * ·) x y).sum)

/-- The `Tensor` data: the flat row-major buffer, the shape, and the cached
index multipliers (linalg.py lines 28-31). -/
structure Tensor (α : Type) where
  _lst : List α
  _shape : List Nat
  _idx_mul : List Nat
  deriving DecidableEq

/-- `Tensor.__init__` when an explicit flat list and shape are supplied (the
`reshape` / arithmetic call sites): check the element count against the shape
(`TensorError` on mismatch) and compute the index multipliers. -/
def fromFlat {α : Type} (lst : List α) (shape : List Nat) : Except Err (Tensor α) := do
  if lst.length ≠ prodL shape ∨ shape.isEmpty then
    if shape.isEmpty then
      .error (.valueErr "Cannot determine product of vector with no elements")
    else
      .error (.tensorErr "Tensor cannot be fit into given shape")
  else do
    let muls ← getIdxMultipliers shape
    .ok ⟨lst, shape, muls⟩

/-- `Tensor.__init__` from a nested sequence with no explicit shape
(linalg.py lines 33-48): flatten, infer dimensions via `get_seq_dims`
(re-raising its `ValueError` as a `TensorError`), check the element count,
compute the index multipliers. -/
def fromNested {α : Type} (raw : Raw α) : Except Err (Tensor α) := do
  let lst := raw.flatten
  let shape ← match getSeqDims raw with
    | .ok dims => pure dims
    | .error (.valueErr m) => .error (.tensorErr m)
    | .error e => .error e
  if lst.length ≠ prodL shape then
    .error (.tensorErr "Tensor cannot be fit into given shape")
  else do
    let muls ← getIdxMultipliers shape
    .ok ⟨lst, shape, muls⟩

def Tensor.order {α : Type} (t : Tensor α) : Nat := t._shape.length

/-- `Tensor.m`: the first dimension (`self._shape[0]`). -/
def Tensor.m {α : Type} (t : Tensor α) : Nat := t._shape.headD 0

/-- `Tensor.n`: the last dimension (`self._shape[-1]`). -/
def Tensor.n {α : Type} (t : Tensor α) : Nat := t._shape.getLastD 0

/-- `Tensor.__getitem__` (linalg.py lines 134-138): the flat offset is the dot
product of the key with the index multipliers — no per-axis bounds check; the
underlying list access raises `IndexError` only when the offset is outside
the buffer. -/
def Tensor.getItem {α : Type} (t : Tensor α) (key : List Nat) : Except Err α := do
  let off ← dotE key t._idx_mul
  match t._lst[off]? with
  | some a => .ok a
  | none => .error .indexErr

/-- `Tensor.__setitem__` (linalg.py lines 140-144). -/
def Tensor.setItem {α : Type} (t : Tensor α) (key : List Nat) (value : α) :
    Except Err (Tensor α) := do
  let off ← dotE key t._idx_mul
  if off < t._lst.length then
    .ok { t with _lst := t._lst.set off value }
  else .error .indexErr

/-- `Tensor.reshape`: construct from the same flat buffer and the new shape. -/
def Tensor.reshape {α : Type} (t : Tensor α) (shape : List Nat) : Except Err (Tensor α) :=
  fromFlat t._lst shape

/-- `Tensor.__eq__` (linalg.py lines 153-164): same shape and pairwise equal
values. -/
def Tensor.eqT {α : Type} [DecidableEq α] (t u : Tensor α) : Bool :=
  if t._shape ≠ u._shape then false
  else (List.zip t._lst u._lst).all (fun p => p.1 = p.2)

/-- `Tensor.__mul__` by a scalar (linalg.py lines 166-170). -/
def Tensor.smul {α : Type} [Mul α] (t : Tensor α) (other : α) : Except Err (Tensor α) :=
  fromFlat (t._lst.map (fun x => other * x)) t._shape

/-- `Tensor.__add__` (linalg.py lines 174-181): `TensorError` unless the
shapes agree, then elementwise sum rebuilt over the same shape. -/
def Tensor.addT {α : Type} [Add α] (t u : Tensor α) : Except Err (Tensor α) :=
  if t._shape ≠ u._shape then .error (.tensorErr "Tensors must have same shape")
  else fromFlat (List.zipWith (· + ·) t._lst u._lst) t._shape

/-- `Tensor.__sub__` (linalg.py lines 183-184): `self + -1 * other`. -/
def Tensor.subT {α : Type} [Add α] [Mul α] [Neg α] [One α] (t u : Tensor α) :
    Except Err (Tensor α) := do
  let w ← u.smul (-1)
  t.addT w

/-- `Tensor.__matmul__` (linalg.py lines 193-210): `TensorError` unless the
inner dimensions agree, then the contraction built as a nested list of rows
and fed back through the nested constructor. -/
def Tensor.matmul {α : Type} [Mul α] [AddCommMonoid α] (t u : Tensor α) :
    Except Err (Tensor α) := do
  if t.n ≠ u.m then .error (.tensorErr "Tensors must have compatible shape")
  else do
    let rows ← (List.range t.m).mapM (fun i => do
      let row ← (List.range u.n).mapM (fun k => do
        let terms ← (List.range t.n).mapM (fun j => do
          let a ← t.getItem [i, j]
          let b ← u.getItem [j, k]
          pure (a * b))
        pure terms.sum)
      pure (Raw.node (row.map Raw.leaf)))
    fromNested (Raw.node rows)

/-- `Tensor._rearrange` (linalg.py lines 70-87): recurse over the re-ordered
index list, iterating each index through its dimension and reading the source
element once all indices are placed.  An empty index list hits `indices[0]`,
an `IndexError`. -/
def Tensor.rearAux {α : Type} (t : Tensor α) : List Nat → List Nat → Except Err (List α)
  | [], _ => .error .indexErr
  | [c], idxs => (List.range (t._shape.getD c 0)).mapM (fun i => t.getItem (idxs.set c i))
  | c :: rest@(_ :: _), idxs => do
    let chunks ← (List.range (t._shape.getD c 0)).mapM (fun i => t.rearAux rest (idxs.set c i))
    .ok chunks.flatten

/-- `Tensor.rearrange` (linalg.py lines 89-118): the index list must be
exactly the tensor's axis indices in some order (`TensorError` otherwise);
then traverse in the new index order and rebuild over the permuted shape. -/
def Tensor.rearrange {α : Type} (t : Tensor α) (indices : List Nat) :
    Except Err (Tensor α) := do
  let order := t.order
  if ¬((List.range order).all (· ∈ indices) ∧ indices.all (· ∈ List.range order) ∧
      indices.length = order) then
    .error (.tensorErr "Expected exactly the following indices in some order")
  else do
    let newLst ← t.rearAux indices (List.replicate t._shape.length 0)
    let newShape := indices.map (fun i => t._shape.getD i 0)
    fromFlat newLst newShape

/-- The inverse of a permutation of `0..n-1`: position `u` holds the position
at which `u` occurs in `p`. -/
def invPerm (p : List Nat) : List Nat :=
  (List.range p.length).map (fun u => (pyIndex p u).getD p.length)

/-- A well-formed tensor: one actually produced by the constructor — nonempty
shape of positive dimensions, a buffer of matching size, and the cached
multipliers. -/
def Tensor.WF {α : Type} (t : Tensor α) : Prop :=
  t._shape ≠ [] ∧ (∀ d ∈ t._shape, 0 < d) ∧
    t._lst.length = prodL t._shape ∧ t._idx_mul = spMuls t._shape

mutual

/-- Rectangularity of a nested sequence in the sense of the spec: some single
dimension vector describes every level of its nesting exactly. -/
def Raw.rectDims {α : Type} : Raw α → Option (List Nat)
  | .leaf _ => some []
  | .node l =>
    match rectDimsL l with
    | none => none
    | some ds =>
      match ds with
      | [] => some [0]
      | d0 :: rest => if rest.all (· = d0) then some (l.length :: d0) else none

def rectDimsL {α : Type} : List (Raw α) → Option (List (List Nat))
  | [] => some []
  | r :: rs =>
    match r.rectDims, rectDimsL rs with
    | some d, some ds => some (d :: ds)
    | _, _ => none

end

/-- Row-major enumeration of all multi-indices of a shape. -/
def enumIdx : List Nat → List (List Nat)
  | [] => [[]]
  | d :: s => (List.range d).flatMap (fun i => (enumIdx s).map (i :: ·))

/-- Pure row-major rank of a multi-index. -/
def rankIdx (key mul : List Nat) : Nat := (List.zipWith (· * ·) key mul).sum

/-- Write the values `j` at the positions `p` into a base index vector. -/
def scatter : List Nat → List Nat → List Nat → List Nat
  | c :: p, i :: j, base => scatter p j (base.set c i)
  | _, _, base => base

/-! # Theorems -/

/-! ## Association-map facts about the Workspace -/

lemma lookupW_insertW_self (w : Workspace) (n : Nat) (x : ℝ) :
    lookupW (insertW w n x) n = some x := by
  simp [lookupW, insertW, List.lookup]

lemma memW_insertW_self (w : Workspace) (n : Nat) (x : ℝ) :
    memW (insertW w n x) n = true := by
  simp [memW, insertW]

lemma memW_eq_true_iff (w : Workspace) (n : Nat) :
    memW w n = true ↔ ∃ v, lookupW w n = some v := by
  induction w with
  | nil => simp [memW, lookupW, List.lookup]
  | cons p t ih =>
    by_cases h : p.1 = n
    · simp [memW, lookupW, List.lookup, h]
    · simp only [memW, lookupW, List.lookup, List.any_cons] at ih ⊢
      have hb : (p.1 == n) = false := by simpa using h
      have hb2 : (n == p.1) = false := by simpa using fun he => h he.symm
      simp [hb, hb2, ih]

lemma lookupW_filter_ne (w : Workspace) (n m : Nat) (h : m ≠ n) :
    lookupW (List.filter (fun p => p.1 != n) w) m = lookupW w m := by
  induction w with
  | nil => simp [lookupW]
  | cons p t ih =>
    by_cases hp : p.1 = n
    · have hmn : (m == n) = false := by simpa using h
      have hm : (m == p.1) = false := by rw [hp]; exact hmn
      simp [lookupW, List.lookup, List.filter, hp, hm, hmn] at ih ⊢
      exact ih
    · have hb : (p.1 != n) = true := by simpa using hp
      by_cases hm : m = p.1
      · simp [lookupW, List.lookup, List.filter, hb, hm]
      · have hm2 : (m == p.1) = false := by simpa using hm
        simp [lookupW, List.lookup, List.filter, hb, hm2] at ih ⊢
        exact ih

lemma lookupW_insertW_ne (w : Workspace) (n m : Nat) (x : ℝ) (h : m ≠ n) :
    lookupW (insertW w n x) m = lookupW w m := by
  have hm : (m == n) = false := by simpa using h
  simp [lookupW, insertW, List.lookup, hm]
  exact lookupW_filter_ne w n m h

/-! ## Numeric bounds on cos 5, via the complex exponential series -/

lemma expSeries_sixteen_re :
    (∑ m ∈ Finset.range 16, Complex.I ^ m / m.factorial).re =
      (47102631757 : ℝ) / 87178291200 := by
  simp [Finset.sum_range_succ, pow_succ, Complex.I_mul_I, Nat.factorial]
  norm_num [Complex.div_re, Complex.normSq]

lemma exp_I_re_eq_cos_one : (Complex.exp Complex.I).re = Real.cos 1 := by
  have h : Complex.exp Complex.I = Complex.cos 1 + Complex.sin 1 * Complex.I := by
    have := Complex.exp_mul_I (x := 1)
    simpa using this
  have hc : (Complex.cos 1).re = Real.cos 1 := by
    rw [← Complex.ofReal_one, Complex.cos_ofReal_re]
  have hs : (Complex.sin 1).im = 0 := by
    rw [← Complex.ofReal_one, Complex.sin_ofReal_im]
  rw [h, Complex.add_re, Complex.mul_I_re, hc, hs]
  ring

lemma cos_one_close :
    |Real.cos 1 - (47102631757 : ℝ) / 87178291200| ≤ 17 / 334764638208000 := by
  have hb := Complex.exp_bound (x := Complex.I) (by simp) (n := 16) (by norm_num)
  have key : |Real.cos 1 - (47102631757 : ℝ) / 87178291200| ≤
      Complex.abs (Complex.exp Complex.I -
        ∑ m ∈ Finset.range 16, Complex.I ^ m / m.factorial) := by
    calc |Real.cos 1 - (47102631757 : ℝ) / 87178291200|
        = |(Complex.exp Complex.I -
            ∑ m ∈ Finset.range 16, Complex.I ^ m / m.factorial).re| := by
          rw [Complex.sub_re, exp_I_re_eq_cos_one, expSeries_sixteen_re]
      _ ≤ _ := Complex.abs_re_le_abs _
  refine le_trans key (le_trans hb ?_)
  rw [Complex.abs_I, one_pow, one_mul]
  norm_num [Nat.factorial]

lemma cos_five_chebyshev :
    Real.cos 5 = 16 * Real.cos 1 ^ 5 - 20 * Real.cos 1 ^ 3 + 5 * Real.cos 1 := by
  have hs : Real.sin 1 ^ 2 = 1 - Real.cos 1 ^ 2 := Real.sin_sq 1
  have h5 : Real.cos 5 = Real.cos (2 * 1 + 3 * 1) := by norm_num
  rw [h5, Real.cos_add, Real.cos_two_mul, Real.cos_three_mul, Real.sin_two_mul,
    Real.sin_three_mul]
  linear_combination
    (-6 * Real.cos 1 + 8 * Real.cos 1 * (Real.sin 1 ^ 2 + 1 - Real.cos 1 ^ 2)) * hs

lemma cos_five_bounds : 0.2836615 < Real.cos 5 ∧ Real.cos 5 < 0.2836625 := by
  have hc := cos_one_close
  rw [abs_le] at hc
  have hlo : (0.5403023058680 : ℝ) < Real.cos 1 := by nlinarith [hc.1]
  have hhi : Real.cos 1 < (0.5403023058682 : ℝ) := by nlinarith [hc.2]
  have hpos : (0 : ℝ) < Real.cos 1 := by linarith
  have h3lo : (0.5403023058680 : ℝ) ^ 3 < Real.cos 1 ^ 3 := by
    apply pow_lt_pow_left₀ hlo (by norm_num)
    norm_num
  have h3hi : Real.cos 1 ^ 3 < (0.5403023058682 : ℝ) ^ 3 := by
    apply pow_lt_pow_left₀ hhi (le_of_lt hpos)
    norm_num
  have h5lo : (0.5403023058680 : ℝ) ^ 5 < Real.cos 1 ^ 5 := by
    apply pow_lt_pow_left₀ hlo (by norm_num)
    norm_num
  have h5hi : Real.cos 1 ^ 5 < (0.5403023058682 : ℝ) ^ 5 := by
    apply pow_lt_pow_left₀ hhi (le_of_lt hpos)
    norm_num
  rw [cos_five_chebyshev]
  constructor
  · nlinarith [h5lo, h3hi, hlo]
  · nlinarith [h5hi, h3lo, hhi]

lemma round_two_sub_cos_five :
    round ((2 - Real.cos 5) * 10 ^ 6) = (1716338 : ℤ) := by
  have h := cos_five_bounds
  rw [round_eq, Int.floor_eq_iff]
  push_cast
  constructor
  · nlinarith [h.2]
  · nlinarith [h.1]

/-! ## Claims C1, C4, C5, C7 -/

/-- Claim C1: memoization idempotence of the Session-based evaluation.  For a
compound node `n`, a successful first call checks the cache before recursing
and stores the computed value, so afterwards `has_value n` holds, a second
call (with any remaining fuel) returns the same value with the workspace
unchanged, and if the value was already cached the first call itself left the
workspace untouched. -/
theorem evalS_memoization_idempotent (fuel : Nat) (g : Graph) (n : Nat) (s : Session)
    (nd : GNode) (v : ℝ) (s2 : Session)
    (hn : g[n]? = some nd)
    (hcomp : isCompound nd.op = true)
    (h1 : evalS (fuel + 1) g n s = .ok (v, s2)) :
    s2.has_value n = true ∧
    (∀ fuel2, evalS (fuel2 + 1) g n s2 = .ok (v, s2)) ∧
    (s.has_value n = true → s2 = s) := by
  have hgetAll : ∀ (f4 : Nat) (s3 : Session), s3.has_value n = true →
      ∃ v3, lookupW s3.values n = some v3 ∧
        evalS (f4 + 1) g n s3 = .ok (v3, s3) := by
    intro f4 s3 h3
    obtain ⟨v3, hv3⟩ := (memW_eq_true_iff s3.values n).1 h3
    have h3m : memW s3.values n = true := h3
    refine ⟨v3, hv3, ?_⟩
    cases hop : nd.op <;> simp [hop, isCompound] at hcomp <;>
      simp [evalS, hn, hop, Session.has_value, h3m, Session.get_value, hv3, Except.map]
  by_cases hv : s.has_value n
  · obtain ⟨v3, hv3, heval⟩ := hgetAll fuel s hv
    rw [h1] at heval
    obtain ⟨hveq, hseq⟩ : v = v3 ∧ s2 = s := by
      cases heval
      exact ⟨rfl, rfl⟩
    subst hseq
    refine ⟨hv, ?_, fun _ => rfl⟩
    intro fuel2
    obtain ⟨v4, hv4, heval2⟩ := hgetAll fuel2 s2 hv
    rw [hv3] at hv4
    cases hv4
    rw [heval2, hveq]
  · have hvf : s.has_value n = false := by simpa using hv
    have hvm : memW s.values n = false := hvf
    have key : s2.has_value n = true ∧ lookupW s2.values n = some v := by
      cases hop : nd.op <;> simp [hop, isCompound] at hcomp <;>
      · simp only [evalS, hn, hop, Session.has_value, hvm, Bool.false_eq_true, if_false,
          bind, Except.bind] at h1
        split at h1
        · cases h1
        · split at h1
          · cases h1
          · cases h1
            exact ⟨memW_insertW_self _ _ _, lookupW_insertW_self _ _ _⟩
    refine ⟨key.1, ?_, fun hcon => absurd hcon hv⟩
    intro fuel2
    obtain ⟨v4, hv4, heval2⟩ := hgetAll fuel2 s2 key.1
    rw [key.2] at hv4
    cases hv4
    exact heval2

/-- Witness for C1 on a concrete graph `add(x, x)` with `x = 3`: the first
call computes `6` and caches it, the second call returns it unchanged. -/
theorem evalS_memoization_idempotent_witness :
    Session.has_value ⟨[(1, 6), (0, 3)], []⟩ 1 = true ∧
    evalS 5 [⟨.var "x", [], [1], some "x"⟩, ⟨.add, [0, 0], [], none⟩] 1
      ⟨[(1, 6), (0, 3)], []⟩ = .ok (6, ⟨[(1, 6), (0, 3)], []⟩) := by
  have happ := evalS_memoization_idempotent 2
    [⟨.var "x", [], [1], some "x"⟩, ⟨.add, [0, 0], [], none⟩] 1
    ⟨[(0, 3)], []⟩ ⟨.add, [0, 0], [], none⟩ 6 ⟨[(1, 6), (0, 3)], []⟩
    (by simp) (by simp [isCompound])
    (by simp [evalS, opF, Add.f, Session.has_value, Session.get_value, Session.set_value,
          memW, lookupW, insertW, List.lookup, List.foldlM, Except.pure, Except.bind,
          bind, pure]
        norm_num)
  exact ⟨happ.1, happ.2.1 4⟩

/-- Claim C4: reverse-mode terminal case.  A node with no consumers returns
its externally pre-seeded delta directly from the workspace, with no summation
over consumers and no workspace mutation. -/
theorem doDf_no_consumers_returns_seeded_delta (fuel : Nat) (g : Graph) (n : Nat)
    (s : Session) (nd : GNode)
    (hn : g[n]? = some nd)
    (hterm : nd.outputs = []) :
    doDf (fuel + 1) g n s = (s.get_delta n).map (fun d => (d, s)) := by
  simp [doDf, hn, hterm]

/-- Witness for C4: a consumer-less `Id` output node with its delta seeded to
1 returns exactly that seed. -/
theorem doDf_no_consumers_witness :
    doDf 1 [⟨.var "x", [], [1], some "x"⟩, ⟨.id, [0], [], some "y"⟩] 1
      ⟨[], [(1, 1)]⟩ = .ok (1, ⟨[], [(1, 1)]⟩) := by
  rw [show (1 : Nat) = 0 + 1 from rfl]
  rw [doDf_no_consumers_returns_seeded_delta 0
    [⟨.var "x", [], [1], some "x"⟩, ⟨.id, [0], [], some "y"⟩] 1
    ⟨[], [(1, 1)]⟩ ⟨.id, [0], [], some "y"⟩ (by simp) rfl]
  simp [Session.get_delta, lookupW, List.lookup, Except.map]

/-- Claim C5: the elementary function table.  Each node variant's value
function `f` and local derivative `df` equal the specified formulas. -/
theorem elementary_function_table (x y dx dy c : ℝ) (args : List ℝ) :
    Add.f x y = x + y ∧ Add.df x y dx dy = dx + dy ∧
    Sub.f x y = x - y ∧ Sub.df x y dx dy = dx - dy ∧
    Mul.f x y = x * y ∧ Mul.df x y dx dy = x * dy + y * dx ∧
    Div.f x y = x / y ∧ Div.df x y dx dy = (dx * y - x * dy) / y ^ 2 ∧
    Ln.f x = Real.log x ∧ Ln.df x dx = dx / x ∧
    Sin.f x = Real.sin x ∧ Sin.df x dx = dx * Real.cos x ∧
    Id.f x = x ∧ Id.df x dx = dx ∧
    Const.f c args = c ∧ Const.df args = 0 := by
  refine ⟨rfl, rfl, rfl, rfl, rfl, by rw [Mul.df]; ring, rfl, rfl, rfl, rfl, rfl,
    by rw [Sin.df]; ring, rfl, rfl, rfl, rfl⟩

/-- Claim C7: the workspace lookup contract.  `get_value`/`get_delta` return
the stored number when present and otherwise fail with a `SessionError` whose
message names the node; `has_value`/`has_delta` are non-failing existence
checks; `set_value`/`set_delta` unconditionally overwrite, touch no other key,
and leave the other map untouched. -/
theorem session_lookup_contract (s : Session) (n m : Nat) (x y : ℝ) :
    (∀ v, lookupW s.values n = some v → s.get_value n = .ok v) ∧
    (lookupW s.values n = none →
      s.get_value n = .error (.sessionErr ("Cannot find value for node " ++ toString n))) ∧
    (s.has_value n = true ↔ ∃ v, lookupW s.values n = some v) ∧
    (∀ v, lookupW s.deltas n = some v → s.get_delta n = .ok v) ∧
    (lookupW s.deltas n = none →
      s.get_delta n = .error (.sessionErr ("Cannot find delta for node " ++ toString n))) ∧
    (s.has_delta n = true ↔ ∃ v, lookupW s.deltas n = some v) ∧
    lookupW (s.set_value n x).values n = some x ∧
    (s.set_value n x).deltas = s.deltas ∧
    (m ≠ n → lookupW (s.set_value n x).values m = lookupW s.values m) ∧
    lookupW (s.set_delta n y).deltas n = some y ∧
    (s.set_delta n y).values = s.values ∧
    (m ≠ n → lookupW (s.set_delta n y).deltas m = lookupW s.deltas m) := by
  refine ⟨?_, ?_, memW_eq_true_iff _ _, ?_, ?_, memW_eq_true_iff _ _, ?_, rfl, ?_, ?_, rfl, ?_⟩
  · intro v hv
    simp [Session.get_value, hv]
  · intro hv
    simp [Session.get_value, hv]
  · intro v hv
    simp [Session.get_delta, hv]
  · intro hv
    simp [Session.get_delta, hv]
  · exact lookupW_insertW_self _ _ _
  · exact fun h => lookupW_insertW_ne _ _ _ _ h
  · exact lookupW_insertW_self _ _ _
  · exact fun h => lookupW_insertW_ne _ _ _ _ h

/-- Claim C2: the worked example `y = ln(x1) + x1*x2 - sin(x2)` at
`x1 = 2, x2 = 5`.  Forward mode seeded `(dx1, dx2) = (1, 0)` yields tangent
`5.5`; seeded `(0, 1)` it yields `2 - cos 5`, which rounds at six decimals to
`1.716338`; the reverse pass with the output adjoint seeded to 1 produces the
same two partial derivatives (read at the `Id` wrappers of `x1` and `x2`). -/
theorem forward_reverse_worked_example :
    (∃ v : ℝ, fwdG 12 exGraph [("x1", (2, 1)), ("x2", (5, 0))] 9 = .ok (v, 5.5)) ∧
    (∃ v : ℝ, fwdG 12 exGraph [("x1", (2, 0)), ("x2", (5, 1))] 9 =
      .ok (v, 2 - Real.cos 5)) ∧
    round ((2 - Real.cos 5) * 10 ^ 6) = (1716338 : ℤ) ∧
    backG 12 exGraph [("x1", 2), ("x2", 5), ("y", 1)] 2 = .ok [5.5] ∧
    backG 12 exGraph [("x1", 2), ("x2", 5), ("y", 1)] 3 = .ok [2 - Real.cos 5] := by
  have hg : exGraph = exGraphLit := rfl
  rw [hg]
  refine ⟨⟨Real.log 2 + 2 * 5 - Real.sin 5, ?_⟩,
    ⟨Real.log 2 + 2 * 5 - Real.sin 5, ?_⟩, round_two_sub_cos_five, ?_, ?_⟩
  · simp [fwdG, exGraphLit, opF, opDf, Id.f, Id.df, Ln.f, Ln.df, Sin.f, Sin.df,
      Add.f, Add.df, Sub.f, Sub.df, Mul.f, Mul.df, List.lookup, List.mapM,
      List.mapM.loop, Except.pure, Except.bind, bind, pure]
    norm_num
  · simp [fwdG, exGraphLit, opF, opDf, Id.f, Id.df, Ln.f, Ln.df, Sin.f, Sin.df,
      Add.f, Add.df, Sub.f, Sub.df, Mul.f, Mul.df, List.lookup, List.mapM,
      List.mapM.loop, Except.pure, Except.bind, bind, pure]
  · simp [backG, evalG, exGraphLit, opF, opDi, Id.f, Ln.f, Sin.f, Add.f, Sub.f, Mul.f,
      Id.di, Ln.di, Sin.di, Add.di, Sub.di, Mul.di, List.lookup, List.mapM,
      List.mapM.loop, pyIndex, Except.pure, Except.bind, bind, pure]
    norm_num
  · simp [backG, evalG, exGraphLit, opF, opDi, Id.f, Ln.f, Sin.f, Add.f, Sub.f, Mul.f,
      Id.di, Ln.di, Sin.di, Add.di, Sub.di, Mul.di, List.lookup, List.mapM,
      List.mapM.loop, pyIndex, Except.pure, Except.bind, bind, pure]
    ring_nf

/-- Claim C3, the defect witness: in `s = Sub(m, m)` the node `m` occurs at
both operand positions of one consumer, and `Node.back` fetches both per-edge
contributions with `out.inputs.index(self)`, the FIRST occurrence position.
The code therefore returns adjoint 2 for `m` (both edges read the position-0
component of `Sub.di`, which is `[1, -1]`), while the claimed per-position
one-hot accumulation `df(3,3,1,0) + df(3,3,0,1)` — the true derivative of
`a - a` — is 0. -/
theorem back_duplicate_operand_uses_first_position :
    backG 12 dupGraph [("a", 3), ("y", 1)] 1 = .ok [2] ∧
    backG 12 dupGraph [("a", 3), ("y", 1)] 2 = .ok [1, -1] ∧
    Sub.df 3 3 1 0 + Sub.df 3 3 0 1 = 0 := by
  refine ⟨?_, ?_, by simp [Sub.df]⟩
  · simp [backG, evalG, dupGraph, mkNode, listModify, opF, opDi, Id.f, Sub.f,
      Id.di, Sub.di, List.lookup, List.mapM, List.mapM.loop,
      pyIndex, Except.pure, Except.bind, bind, pure]
    norm_num
  · simp [backG, evalG, dupGraph, mkNode, listModify, opF, opDi, Id.f, Sub.f,
      Id.di, Sub.di, List.lookup, List.mapM, List.mapM.loop,
      pyIndex, Except.pure, Except.bind, bind, pure]

lemma listModify_getElem_self {α : Type} (l : List α) (i : Nat) (f : α → α) :
    (listModify l i f)[i]? = (l[i]?).map f := by
  induction l generalizing i with
  | nil => simp [listModify]
  | cons a t ih =>
    cases i with
    | zero => simp [listModify]
    | succ k => simpa [listModify] using ih k

lemma listModify_getElem_ne {α : Type} (l : List α) (i j : Nat) (f : α → α)
    (h : i ≠ j) : (listModify l i f)[j]? = l[j]? := by
  induction l generalizing i j with
  | nil => simp [listModify]
  | cons a t ih =>
    cases i with
    | zero =>
      cases j with
      | zero => exact absurd rfl h
      | succ k => simp [listModify]
    | succ i2 =>
      cases j with
      | zero => simp [listModify]
      | succ k => simpa [listModify] using ih i2 k (by omega)

lemma listModify_length {α : Type} (l : List α) (i : Nat) (f : α → α) :
    (listModify l i f).length = l.length := by
  induction l generalizing i with
  | nil => simp [listModify]
  | cons a t ih =>
    cases i with
    | zero => simp [listModify]
    | succ k => simpa [listModify] using ih k

/-- The consumer-registration fold of `mkNode`, one `outputs` append per
occurrence of an operand. -/
lemma regFold_getElem (ins : List Nat) (g : Graph) (nid : Nat) (j : Nat) :
    (ins.foldl (fun acc i =>
        listModify acc i (fun nd => { nd with outputs := nd.outputs ++ [nid] })) g)[j]? =
      (g[j]?).map (fun nd =>
        { nd with outputs := nd.outputs ++ List.replicate (ins.count j) nid }) := by
  induction ins generalizing g with
  | nil =>
    cases h : g[j]? <;> simp [h]
  | cons i rest ih =>
    rw [List.foldl_cons, ih]
    by_cases hij : i = j
    · subst hij
      rw [listModify_getElem_self]
      cases h : g[i]? with
      | none => simp
      | some nd =>
        simp [List.count_cons, List.replicate_succ]
    · rw [listModify_getElem_ne _ _ _ _ hij]
      have hcount : (rest.count j) = ((i :: rest).count j) := by
        simp [List.count_cons, hij]
      rw [hcount]

lemma regFold_length (ins : List Nat) (g : Graph) (nid : Nat) :
    (ins.foldl (fun acc i =>
        listModify acc i (fun nd => { nd with outputs := nd.outputs ++ [nid] })) g).length =
      g.length := by
  induction ins generalizing g with
  | nil => rfl
  | cons i rest ih => rw [List.foldl_cons, ih, listModify_length]

/-- Claim C6: consumer back-reference invariant.  Construction of a compound
node from a sequence of operands appends the new node to each operand's
`outputs` list, once per occurrence, records exactly the given operands as
its `inputs` (with an empty consumer list of its own), and leaves every other
node untouched — so the operand-to-consumer edge is queryable in both
directions immediately after construction. -/
theorem mkNode_registers_consumer_back_references (g : Graph) (op : Op) (ins : List Nat) (nm : Option String) :
    (mkNode g op ins nm).2 = g.length ∧
    (mkNode g op ins nm).1[g.length]? = some ⟨op, ins, [], nm⟩ ∧
    (∀ i nd, i ∈ ins → g[i]? = some nd →
      (mkNode g op ins nm).1[i]? =
        some { nd with outputs := nd.outputs ++ List.replicate (ins.count i) g.length } ∧
      g.length ∈ nd.outputs ++ List.replicate (ins.count i) g.length) ∧
    (∀ j, j ∉ ins →
      (mkNode g op ins nm).1[j]? =
        if j = g.length then some ⟨op, ins, [], nm⟩ else g[j]?) := by
  refine ⟨rfl, ?_, ?_, ?_⟩
  · show ((ins.foldl _ g) ++ [(⟨op, ins, [], nm⟩ : GNode)])[g.length]? = _
    rw [List.getElem?_append_right (by rw [regFold_length])]
    rw [regFold_length]
    simp
  · intro i nd hmem hnd
    have hlt : i < g.length := (List.getElem?_eq_some_iff.1 hnd).1
    constructor
    · show ((ins.foldl _ g) ++ [(⟨op, ins, [], nm⟩ : GNode)])[i]? = _
      rw [List.getElem?_append_left (by rw [regFold_length]; exact hlt)]
      rw [regFold_getElem, hnd]
      rfl
    · refine List.mem_append_right _ ?_
      rw [List.mem_replicate]
      exact ⟨(List.count_pos_iff.2 hmem).ne', rfl⟩
  · intro j hj
    by_cases hje : j = g.length
    · subst hje
      rw [if_pos rfl]
      show ((ins.foldl _ g) ++ [(⟨op, ins, [], nm⟩ : GNode)])[g.length]? = _
      rw [List.getElem?_append_right (by rw [regFold_length])]
      rw [regFold_length]
      simp
    · rw [if_neg hje]
      by_cases hlt : j < g.length
      · show ((ins.foldl _ g) ++ [(⟨op, ins, [], nm⟩ : GNode)])[j]? = _
        rw [List.getElem?_append_left (by rw [regFold_length]; exact hlt)]
        rw [regFold_getElem]
        have hc : ins.count j = 0 := List.count_eq_zero.2 hj
        cases h : g[j]? <;> simp [hc, h]
      · have h1 : g[j]? = none := by
          rw [List.getElem?_eq_none_iff]
          omega
        have h2 : (mkNode g op ins nm).1[j]? = none := by
          rw [List.getElem?_eq_none_iff]
          show ((ins.foldl _ g) ++ [(⟨op, ins, [], nm⟩ : GNode)]).length ≤ j
          rw [List.length_append, regFold_length]
          simp only [List.length_cons, List.length_nil]
          omega
        rw [h1, h2]

/-- Witness for C6: `Sub(a, a)` over a one-node arena registers the new node
twice in the operand's consumer list and records both operand slots. -/
theorem mkNode_registers_consumer_back_references_witness :
    (mkNode [⟨.var "a", [], [], some "a"⟩] .sub [0, 0] none).1[0]? =
      some ⟨.var "a", [], [1, 1], some "a"⟩ ∧
    (mkNode [⟨.var "a", [], [], some "a"⟩] .sub [0, 0] none).1[1]? =
      some ⟨.sub, [0, 0], [], none⟩ := by
  have h := mkNode_registers_consumer_back_references
    [⟨.var "a", [], [], some "a"⟩] .sub [0, 0] none
  have h1 := (h.2.2.1 0 ⟨.var "a", [], [], some "a"⟩ (by simp) rfl).1
  constructor
  · simpa using h1
  · simpa using h.2.1

/-- Witness for C7 on a concrete session holding a value for node 0 only. -/
theorem session_lookup_contract_witness :
    Session.get_value ⟨[(0, 3)], []⟩ 0 = .ok 3 ∧
    Session.get_value ⟨[(0, 3)], []⟩ 1 =
      .error (.sessionErr ("Cannot find value for node " ++ toString 1)) ∧
    Session.has_value ⟨[(0, 3)], []⟩ 0 = true ∧
    lookupW (Session.set_value ⟨[(0, 3)], []⟩ 0 7).values 0 = some 7 ∧
    (Session.set_value ⟨[(0, 3)], []⟩ 0 7).deltas = ([] : Workspace) ∧
    Session.get_delta ⟨[(0, 3)], []⟩ 0 =
      .error (.sessionErr ("Cannot find delta for node " ++ toString 0)) := by
  refine ⟨(session_lookup_contract ⟨[(0, 3)], []⟩ 0 1 7 9).1 3 rfl,
    (session_lookup_contract ⟨[(0, 3)], []⟩ 1 0 7 9).2.1 rfl,
    (session_lookup_contract ⟨[(0, 3)], []⟩ 0 1 7 9).2.2.1.2 ⟨3, rfl⟩,
    (session_lookup_contract ⟨[(0, 3)], []⟩ 0 1 7 9).2.2.2.2.2.2.1,
    (session_lookup_contract ⟨[(0, 3)], []⟩ 0 1 7 9).2.2.2.2.2.2.2.1,
    (session_lookup_contract ⟨[(0, 3)], []⟩ 0 1 7 9).2.2.2.2.1 rfl⟩


/-! ## Tensor index combinatorics (for the rearrange round-trip) -/

lemma prodL_nil : prodL [] = 1 := rfl

lemma foldl_mul_eq (l : List Nat) (a : Nat) : l.foldl (· * ·) a = a * prodL l := by
  induction l generalizing a with
  | nil => simp [prodL]
  | cons d t ih =>
    show t.foldl (· * ·) (a * d) = a * prodL (d :: t)
    rw [ih (a * d)]
    show a * d * prodL t = a * List.foldl (· * ·) 1 (d :: t)
    show a * d * prodL t = a * List.foldl (· * ·) (1 * d) t
    rw [ih (1 * d)]
    ring

lemma prodL_cons (d : Nat) (t : List Nat) : prodL (d :: t) = d * prodL t := by
  show List.foldl (· * ·) (1 * d) t = d * prodL t
  rw [foldl_mul_eq]
  ring

lemma prodL_pos (l : List Nat) (h : ∀ d ∈ l, 0 < d) : 0 < prodL l := by
  induction l with
  | nil => simp [prodL]
  | cons d t ih =>
    rw [prodL_cons]
    exact Nat.mul_pos (h d (by simp)) (ih (fun x hx => h x (by simp [hx])))

lemma spMuls_length (s : List Nat) : (spMuls s).length = s.length := by
  induction s with
  | nil => rfl
  | cons d t ih => simp [spMuls, ih]

lemma getIdxMultipliers_go_ok (l : List Nat) (hpos : ∀ d ∈ l, 0 < d) :
    getIdxMultipliers.go (prodL l) l = .ok (spMuls l) := by
  induction l with
  | nil => simp [getIdxMultipliers.go, spMuls]
  | cons d t ih =>
    have hd : 0 < d := hpos d (by simp)
    have hdiv : prodL (d :: t) / d = prodL t := by
      rw [prodL_cons, Nat.mul_div_cancel_left _ hd]
    simp [getIdxMultipliers.go, Nat.pos_iff_ne_zero.1 hd, hdiv, spMuls,
      ih (fun x hx => hpos x (by simp [hx])), Except.bind, bind, Except.pure, pure]

lemma getIdxMultipliers_ok (l : List Nat) (hne : l ≠ []) (hpos : ∀ d ∈ l, 0 < d) :
    getIdxMultipliers l = .ok (spMuls l) := by
  rw [getIdxMultipliers, if_neg (by simpa using hne)]
  exact getIdxMultipliers_go_ok l hpos

lemma dotE_ok (x y : List Nat) (hlen : x.length = y.length) (hne : x ≠ []) :
    dotE x y = .ok (rankIdx x y) := by
  rw [dotE, if_neg (by omega), if_neg (by simpa using hne)]
  rfl

lemma rankIdx_cons (i : Nat) (j : List Nat) (d : Nat) (s : List Nat) :
    rankIdx (i :: j) (spMuls (d :: s)) = i * prodL s + rankIdx j (spMuls s) := by
  simp [rankIdx, spMuls]

lemma rankIdx_lt (j s : List Nat) (h : List.Forall₂ (· < ·) j s)
    (hpos : ∀ d ∈ s, 0 < d) : rankIdx j (spMuls s) < prodL s := by
  induction h with
  | nil => simp [rankIdx, prodL]
  | cons hid htail ih =>
    rename_i i d j2 s2
    rw [rankIdx_cons, prodL_cons]
    have h2 := ih (fun x hx => hpos x (by simp [hx]))
    calc i * prodL s2 + rankIdx j2 (spMuls s2) < i * prodL s2 + prodL s2 := by omega
      _ = (i + 1) * prodL s2 := by ring
      _ ≤ d * prodL s2 := Nat.mul_le_mul_right _ (by omega)

lemma length_enumIdx (s : List Nat) : (enumIdx s).length = prodL s := by
  induction s with
  | nil => simp [enumIdx, prodL]
  | cons d t ih =>
    simp only [enumIdx, List.flatMap, List.length_flatten, List.map_map]
    have hconst : (List.length ∘ fun i => List.map (i :: ·) (enumIdx t)) =
        fun _ : Nat => prodL t := funext fun i => by simp [ih]
    rw [hconst, List.map_const', List.sum_replicate, List.length_range,
      prodL_cons, smul_eq_mul]

lemma mem_enumIdx (s : List Nat) (j : List Nat) :
    j ∈ enumIdx s ↔ List.Forall₂ (· < ·) j s := by
  induction s generalizing j with
  | nil =>
    simp only [enumIdx, List.mem_singleton]
    constructor
    · rintro rfl; exact List.Forall₂.nil
    · intro h; cases h; rfl
  | cons d t ih =>
    simp only [enumIdx, List.mem_flatMap, List.mem_map, List.mem_range]
    constructor
    · rintro ⟨i, hi, j2, hj2, rfl⟩
      exact List.Forall₂.cons hi ((ih j2).1 hj2)
    · intro h
      cases h with
      | cons hd htl =>
        rename_i i j2
        exact ⟨i, hd, j2, (ih j2).2 htl, rfl⟩

/-- Element lookup in a flat concatenation of constant-length blocks. -/
lemma getElem?_flatMap_blocks {β γ : Type} (l : List β) (f : β → List γ) (P : Nat)
    (hlen : ∀ b ∈ l, (f b).length = P) (i r : Nat) (b : β)
    (hb : l[i]? = some b) (hr : r < P) :
    (l.flatMap f)[i * P + r]? = (f b)[r]? := by
  induction l generalizing i with
  | nil => simp at hb
  | cons x xs ih =>
    cases i with
    | zero =>
      simp only [List.getElem?_cons_zero, Option.some.injEq] at hb
      subst hb
      rw [List.flatMap_cons, Nat.zero_mul, Nat.zero_add,
        List.getElem?_append_left (by rw [hlen x (by simp)]; exact hr)]
    | succ i2 =>
      simp only [List.getElem?_cons_succ] at hb
      have hP : P ≤ (i2 + 1) * P := Nat.le_mul_of_pos_left P (by omega)
      rw [List.flatMap_cons, List.getElem?_append_right (by rw [hlen x (by simp)]; omega)]
      have hexp : (i2 + 1) * P = i2 * P + P := by ring
      have harith : (i2 + 1) * P + r - (f x).length = i2 * P + r := by
        rw [hlen x (by simp), hexp]
        omega
      rw [harith]
      exact ih (fun b2 hb2 => hlen b2 (by simp [hb2])) i2 hb

lemma getElem?_enumIdx_rank (s j : List Nat) (h : List.Forall₂ (· < ·) j s)
    (hpos : ∀ d ∈ s, 0 < d) :
    (enumIdx s)[rankIdx j (spMuls s)]? = some j := by
  induction h with
  | nil => simp [enumIdx, rankIdx, spMuls]
  | cons hid htail ih =>
    rename_i i d j2 s2
    have hposs : ∀ x ∈ s2, 0 < x := fun x hx => hpos x (by simp [hx])
    rw [rankIdx_cons]
    show (enumIdx (d :: s2))[i * prodL s2 + rankIdx j2 (spMuls s2)]? = _
    rw [show enumIdx (d :: s2) =
      (List.range d).flatMap (fun i2 => (enumIdx s2).map (i2 :: ·)) from rfl]
    rw [getElem?_flatMap_blocks (List.range d) _ (prodL s2)
      (fun b _ => by simp [length_enumIdx]) i (rankIdx j2 (spMuls s2)) i
      (by simp [hid]) (rankIdx_lt _ _ htail hposs)]
    rw [List.getElem?_map, ih hposs]
    rfl

/-- Unrank: every flat position below the size corresponds to a unique
multi-index. -/
lemma enumIdx_surj (s : List Nat) (hpos : ∀ d ∈ s, 0 < d) (r : Nat)
    (hr : r < prodL s) :
    ∃ j, (enumIdx s)[r]? = some j ∧ List.Forall₂ (· < ·) j s ∧
      rankIdx j (spMuls s) = r := by
  induction s generalizing r with
  | nil =>
    have : r = 0 := by simpa [prodL] using hr
    subst this
    exact ⟨[], rfl, List.Forall₂.nil, rfl⟩
  | cons d t ih =>
    have hP : 0 < prodL t := prodL_pos t (fun x hx => hpos x (by simp [hx]))
    have hd : 0 < d := hpos d (by simp)
    rw [prodL_cons] at hr
    have hr2 : r < prodL t * d := by rw [Nat.mul_comm (prodL t) d]; exact hr
    have hi : r / prodL t < d := Nat.div_lt_of_lt_mul hr2
    have hrm : r % prodL t < prodL t := Nat.mod_lt _ hP
    obtain ⟨j2, hj2, hf2, hrank2⟩ := ih (fun x hx => hpos x (by simp [hx])) (r % prodL t) hrm
    set i := r / prodL t with hi_def
    set m := r % prodL t with hm_def
    have hsplit : r = i * prodL t + m := by
      rw [hi_def, hm_def, Nat.mul_comm, Nat.div_add_mod]
    refine ⟨i :: j2, ?_, List.Forall₂.cons hi hf2, ?_⟩
    · rw [show enumIdx (d :: t) =
        (List.range d).flatMap (fun i2 => (enumIdx t).map (i2 :: ·)) from rfl]
      rw [hsplit]
      rw [getElem?_flatMap_blocks (List.range d) _ (prodL t)
        (fun b _ => by simp [length_enumIdx]) _ _ i (by simp [hi]) hrm]
      rw [List.getElem?_map, hj2]
      rfl
    · rw [rankIdx_cons, hrank2, hsplit]

/-! ## scatter / pyIndex / permutation facts -/

lemma scatter_length (p j base : List Nat) :
    (scatter p j base).length = base.length := by
  induction p generalizing j base with
  | nil => cases j <;> simp [scatter]
  | cons c p2 ih =>
    cases j with
    | nil => simp [scatter]
    | cons i j2 => simp [scatter, ih]

lemma scatter_getElem_not_mem (p j base : List Nat) (c : Nat) (hc : c ∉ p) :
    (scatter p j base)[c]? = base[c]? := by
  induction p generalizing j base with
  | nil => cases j <;> simp [scatter]
  | cons c0 p2 ih =>
    cases j with
    | nil => simp [scatter]
    | cons i j2 =>
      rw [show scatter (c0 :: p2) (i :: j2) base = scatter p2 j2 (base.set c0 i) from rfl]
      rw [ih _ _ (fun h => hc (by simp [h]))]
      exact List.getElem?_set_ne (fun h => hc (by simp [h]))

lemma scatter_getElem_of_idx (p j base : List Nat) (hnd : p.Nodup)
    (t c i : Nat) (hc : p[t]? = some c) (hi : j[t]? = some i)
    (hcb : c < base.length) :
    (scatter p j base)[c]? = some i := by
  induction p generalizing j base t with
  | nil => simp at hc
  | cons c0 p2 ih =>
    cases j with
    | nil => simp at hi
    | cons i0 j2 =>
      rw [show scatter (c0 :: p2) (i0 :: j2) base = scatter p2 j2 (base.set c0 i0) from rfl]
      cases t with
      | zero =>
        simp only [List.getElem?_cons_zero, Option.some.injEq] at hc hi
        subst hc
        subst hi
        rw [scatter_getElem_not_mem _ _ _ _ (by simp at hnd; exact hnd.1)]
        exact List.getElem?_set_self hcb
      | succ t2 =>
        simp only [List.getElem?_cons_succ] at hc hi
        exact ih _ _ (by simp at hnd; exact hnd.2) t2 hc hi (by simpa using hcb)

lemma pyIndex_lt (l : List Nat) (x t : Nat) (h : pyIndex l x = some t) :
    t < l.length := by
  induction l generalizing t with
  | nil => simp [pyIndex] at h
  | cons a l2 ih =>
    rw [pyIndex] at h
    by_cases ha : a = x
    · simp [ha] at h
      simp
      omega
    · simp [ha] at h
      obtain ⟨t2, ht2, rfl⟩ := h
      have := ih t2 ht2
      simp
      omega

lemma pyIndex_getElem (l : List Nat) (x t : Nat) (h : pyIndex l x = some t) :
    l[t]? = some x := by
  induction l generalizing t with
  | nil => simp [pyIndex] at h
  | cons a l2 ih =>
    rw [pyIndex] at h
    by_cases ha : a = x
    · simp [ha] at h
      subst h
      simp [ha]
    · simp [ha] at h
      obtain ⟨t2, ht2, rfl⟩ := h
      simpa using ih t2 ht2

lemma pyIndex_isSome_of_mem (l : List Nat) (x : Nat) (h : x ∈ l) :
    ∃ t, pyIndex l x = some t := by
  induction l with
  | nil => simp at h
  | cons a l2 ih =>
    by_cases ha : a = x
    · exact ⟨0, by simp [pyIndex, ha]⟩
    · have hx2 : x ∈ l2 := by
        rcases List.mem_cons.1 h with h1 | h1
        · exact absurd h1.symm ha
        · exact h1
      obtain ⟨t2, ht2⟩ := ih hx2
      exact ⟨t2 + 1, by simp [pyIndex, ha, ht2]⟩

lemma pyIndex_of_getElem_nodup (l : List Nat) (x t : Nat) (hnd : l.Nodup)
    (h : l[t]? = some x) : pyIndex l x = some t := by
  induction l generalizing t with
  | nil => simp at h
  | cons a l2 ih =>
    cases t with
    | zero =>
      simp only [List.getElem?_cons_zero, Option.some.injEq] at h
      simp [pyIndex, h]
    | succ t2 =>
      simp only [List.getElem?_cons_succ] at h
      have hmem : x ∈ l2 := by
        have := List.getElem?_eq_some_iff.1 h
        obtain ⟨hlt, heq⟩ := this
        exact heq ▸ List.getElem_mem _
      have hax : a ≠ x := by
        simp at hnd
        intro he
        exact hnd.1 (he ▸ hmem)
      have hbeq : (a == x) = false := by simpa using hax
      rw [pyIndex, ih t2 (by simp at hnd; exact hnd.2) h]
      simp [hbeq]

lemma perm_range_of_bounded_nodup (l : List Nat) (n : Nat) (hnd : l.Nodup)
    (hb : ∀ x ∈ l, x < n) (hlen : l.length = n) : l.Perm (List.range n) := by
  have hsub : l ⊆ List.range n := fun x hx => List.mem_range.2 (hb x hx)
  have hsp : l.Subperm (List.range n) := List.subperm_of_subset hnd hsub
  exact hsp.perm_of_length_le (by simp [hlen])

/-! ## getItem on a valid key -/

lemma getItem_ok {α : Type} [Inhabited α] (t : Tensor α) (hWF : t.WF)
    (key : List Nat) (hlen : key.length = t._shape.length)
    (hkey : List.Forall₂ (· < ·) key t._shape) :
    t.getItem key = .ok (t._lst.getD (rankIdx key (spMuls t._shape)) default) := by
  obtain ⟨hne, hpos, hlst, hmul⟩ := hWF
  have hkne : key ≠ [] := by
    intro h
    subst h
    simp at hlen
    exact hne (List.length_eq_zero.1 hlen.symm)
  have hrank := rankIdx_lt key t._shape hkey hpos
  rw [Tensor.getItem, hmul, dotE_ok key (spMuls t._shape)
    (by rw [spMuls_length]; exact hlen) hkne]
  simp only [Except.bind, bind]
  have hin : rankIdx key (spMuls t._shape) < t._lst.length := by
    rw [hlst]; exact hrank
  rw [List.getElem?_eq_getElem hin]
  rw [List.getD_eq_getElem?_getD, List.getElem?_eq_getElem hin]
  rfl

/-- A `mapM` whose every step succeeds returns the mapped list. -/
lemma mapM_ok_map {β γ : Type} (l : List β) (f : β → Except Err γ) (g : β → γ)
    (h : ∀ x ∈ l, f x = .ok (g x)) : l.mapM f = .ok (l.map g) := by
  induction l with
  | nil => rfl
  | cons x xs ih =>
    rw [List.mapM_cons, h x (by simp), ih (fun y hy => h y (by simp [hy]))]
    rfl

/-! ## Characterizing _rearrange -/

lemma getD_set_eq (l : List Nat) (c v : Nat) (h : c < l.length) :
    (l.set c v).getD c 0 = v := by
  simp [List.getD_eq_getElem?_getD, List.getElem?_set_self h]

lemma getD_set_ne (l : List Nat) (c k v : Nat) (h : c ≠ k) :
    (l.set c v).getD k 0 = l.getD k 0 := by
  simp [List.getD_eq_getElem?_getD, List.getElem?_set_ne h]

lemma forall2_of_getD (x s : List Nat) (hlen : x.length = s.length)
    (h : ∀ k, k < s.length → x.getD k 0 < s.getD k 0) :
    List.Forall₂ (· < ·) x s := by
  induction s generalizing x with
  | nil =>
    rw [List.length_nil, List.length_eq_zero] at hlen
    subst hlen
    exact List.Forall₂.nil
  | cons d s2 ih =>
    cases x with
    | nil => simp at hlen
    | cons a x2 =>
      refine List.Forall₂.cons (by simpa using h 0 (by simp)) ?_
      refine ih x2 (by simpa using hlen) (fun k hk => ?_)
      simpa using h (k + 1) (by simpa using hk)

/-- The recursive `_rearrange` traversal enumerates the re-ordered index
space row-major and reads the source at the scattered multi-index. -/
lemma rearAux_ok {α : Type} [Inhabited α] (t : Tensor α) (hWF : t.WF) :
    ∀ (p idxs : List Nat), p ≠ [] → (∀ c ∈ p, c < t._shape.length) →
    idxs.length = t._shape.length →
    (∀ k, k < t._shape.length → idxs.getD k 0 < t._shape.getD k 0) →
    t.rearAux p idxs = .ok ((enumIdx (p.map (t._shape.getD · 0))).map
      (fun j => t._lst.getD (rankIdx (scatter p j idxs) (spMuls t._shape)) default)) := by
  intro p
  induction p with
  | nil => intro idxs hne; exact absurd rfl hne
  | cons c p2 ih =>
    intro idxs _ hbound hlen hpt
    have hc : c < t._shape.length := hbound c (by simp)
    have hkey : ∀ i, i < t._shape.getD c 0 →
        List.Forall₂ (· < ·) (idxs.set c i) t._shape := by
      intro i hi
      refine forall2_of_getD _ _ (by simpa using hlen) (fun k hk => ?_)
      by_cases hck : c = k
      · subst hck
        rw [getD_set_eq _ _ _ (by omega)]
        exact hi
      · rw [getD_set_ne _ _ _ _ hck]
        exact hpt k hk
    cases p2 with
    | nil =>
      have hstep : t.rearAux [c] idxs =
          (List.range (t._shape.getD c 0)).mapM (fun i => t.getItem (idxs.set c i)) := by
        simp only [Tensor.rearAux]
      rw [hstep]
      rw [mapM_ok_map _ _
        (fun i => t._lst.getD (rankIdx (idxs.set c i) (spMuls t._shape)) default)
        (fun i hi => getItem_ok t hWF _ (by simpa using hlen)
          (hkey i (List.mem_range.1 hi)))]
      congr 1
      rw [show enumIdx ([c].map (t._shape.getD · 0)) =
        (List.range (t._shape.getD c 0)).flatMap (fun i => [[i]]) from rfl]
      rw [List.map_flatMap]
      rw [show (fun i : Nat => ([[i]] : List (List Nat)).map
          (fun j => t._lst.getD (rankIdx (scatter [c] j idxs) (spMuls t._shape)) default)) =
        fun i : Nat =>
          [t._lst.getD (rankIdx (idxs.set c i) (spMuls t._shape)) default] from rfl]
      rw [← List.map_eq_flatMap]
    | cons c2 p3 =>
      have hne2 : (c2 :: p3) ≠ [] := by simp
      have hb2 : ∀ x ∈ c2 :: p3, x < t._shape.length :=
        fun x hx => hbound x (by simp [hx])
      have hstep : t.rearAux (c :: c2 :: p3) idxs = (do
          let chunks ← (List.range (t._shape.getD c 0)).mapM
            (fun i => t.rearAux (c2 :: p3) (idxs.set c i))
          Except.ok chunks.flatten) := by
        simp only [Tensor.rearAux]
      rw [hstep]
      rw [mapM_ok_map _ _
        (fun i => (enumIdx ((c2 :: p3).map (t._shape.getD · 0))).map
          (fun j => t._lst.getD
            (rankIdx (scatter (c2 :: p3) j (idxs.set c i)) (spMuls t._shape)) default))
        (fun i hi => ih (idxs.set c i) hne2 hb2 (by simpa using hlen)
          (fun k hk => by
            by_cases hck : c = k
            · subst hck
              rw [getD_set_eq _ _ _ (by omega)]
              exact List.mem_range.1 hi
            · rw [getD_set_ne _ _ _ _ hck]
              exact hpt k hk))]
      simp only [Except.bind, bind]
      congr 1
      rw [show enumIdx ((c :: c2 :: p3).map (t._shape.getD · 0)) =
        (List.range (t._shape.getD c 0)).flatMap
          (fun i => (enumIdx ((c2 :: p3).map (t._shape.getD · 0))).map (i :: ·)) from rfl]
      rw [List.map_flatMap]
      rw [List.flatMap]
      congr 1
      refine List.map_congr_left (fun i _ => ?_)
      rw [List.map_map]
      rfl

/-! ## rearrange on a well-formed tensor and a valid permutation -/

lemma fromFlat_ok {α : Type} (lst : List α) (shape : List Nat)
    (hlen : lst.length = prodL shape) (hne : shape ≠ [])
    (hpos : ∀ d ∈ shape, 0 < d) :
    fromFlat lst shape = .ok ⟨lst, shape, spMuls shape⟩ := by
  rw [fromFlat, if_neg (by simp [hlen, hne])]
  rw [getIdxMultipliers_ok shape hne hpos]
  rfl

lemma getD_eq_getElem_of_lt (s : List Nat) (u : Nat) (h : u < s.length) :
    s.getD u 0 = s[u] := by
  rw [List.getD_eq_getElem?_getD, List.getElem?_eq_getElem h]
  rfl

lemma rearrange_ok {α : Type} [Inhabited α] (t : Tensor α) (p : List Nat)
    (hWF : t.WF) (hp : p.Perm (List.range t._shape.length)) :
    t.rearrange p = .ok ⟨(enumIdx (p.map (t._shape.getD · 0))).map
        (fun j => t._lst.getD
          (rankIdx (scatter p j (List.replicate t._shape.length 0))
            (spMuls t._shape)) default),
      p.map (t._shape.getD · 0), spMuls (p.map (t._shape.getD · 0))⟩ := by
  obtain ⟨hne, hpos, hlst, hmul⟩ := hWF
  have horder : t.order = t._shape.length := rfl
  have hplen : p.length = t._shape.length := by
    have := hp.length_eq
    simpa using this
  have hmemp : ∀ x, x ∈ p ↔ x < t._shape.length := by
    intro x
    rw [hp.mem_iff, List.mem_range]
  have hcheck : ((List.range t.order).all (· ∈ p) ∧
      p.all (· ∈ List.range t.order) ∧ p.length = t.order) := by
    refine ⟨?_, ?_, by rw [horder, hplen]⟩
    · rw [List.all_eq_true]
      intro x hx
      simpa using (hmemp x).2 (by simpa [horder] using List.mem_range.1 hx)
    · rw [List.all_eq_true]
      intro x hx
      simpa [horder] using (hmemp x).1 hx
  have hlen0 : t._shape.length ≠ 0 := by
    intro h
    exact hne (List.length_eq_zero.1 h)
  have hpne : p ≠ [] := by
    intro h
    rw [h] at hplen
    exact hlen0 hplen.symm
  have haux := rearAux_ok t ⟨hne, hpos, hlst, hmul⟩ p
    (List.replicate t._shape.length 0) hpne
    (fun c hc => (hmemp c).1 hc)
    (by simp)
    (fun k hk => by
      rw [List.getD_eq_getElem?_getD, List.getElem?_replicate]
      simp only [hk, if_pos]
      rw [getD_eq_getElem_of_lt _ _ hk]
      exact hpos _ (List.getElem_mem _))
  rw [Tensor.rearrange, if_neg (not_not.2 hcheck)]
  rw [haux]
  show fromFlat _ _ = _
  rw [fromFlat_ok]
  · rw [List.length_map, length_enumIdx]
  · intro h
    have : p = [] := by simpa using congrArg List.length h
    exact hpne this
  · intro d hd
    obtain ⟨i, hip, rfl⟩ := List.mem_map.1 hd
    have hilt : i < t._shape.length := (hmemp i).1 hip
    rw [getD_eq_getElem_of_lt _ _ hilt]
    exact hpos _ (List.getElem_mem _)

lemma invPerm_getElem (p : List Nat) (u t : Nat) (hu : u < p.length)
    (ht : pyIndex p u = some t) : (invPerm p)[u]? = some t := by
  rw [invPerm, List.getElem?_map, List.getElem?_range hu]
  simp [ht]

lemma invPerm_perm (p : List Nat) (n : Nat) (hp : p.Perm (List.range n)) :
    (invPerm p).Perm (List.range n) := by
  have hplen : p.length = n := by simpa using hp.length_eq
  have hmemp : ∀ x, x ∈ p ↔ x < n := by
    intro x
    rw [hp.mem_iff, List.mem_range]
  have hnd : p.Nodup := hp.nodup_iff.2 (List.nodup_range n)
  have hval : ∀ u, u < n → ∃ t, pyIndex p u = some t ∧ p[t]? = some u ∧ t < n := by
    intro u hu
    obtain ⟨t, ht⟩ := pyIndex_isSome_of_mem p u ((hmemp u).2 hu)
    exact ⟨t, ht, pyIndex_getElem p u t ht, hplen ▸ pyIndex_lt p u t ht⟩
  refine perm_range_of_bounded_nodup _ n ?_ ?_ (by simp [invPerm, hplen])
  · rw [invPerm]
    refine List.Nodup.map_on ?_ (List.nodup_range _)
    intro x hx y hy hf
    obtain ⟨tx, htx, hptx, _⟩ := hval x (by simpa [hplen] using List.mem_range.1 hx)
    obtain ⟨ty, hty, hpty, _⟩ := hval y (by simpa [hplen] using List.mem_range.1 hy)
    rw [htx, hty] at hf
    simp only [Option.getD_some] at hf
    subst hf
    rw [hptx] at hpty
    exact Option.some.inj hpty
  · intro x hx
    rw [invPerm] at hx
    obtain ⟨u, hu, rfl⟩ := List.mem_map.1 hx
    obtain ⟨t, ht, _, htn⟩ := hval u (by simpa [hplen] using List.mem_range.1 hu)
    simpa [ht] using htn

lemma forall2_getElem (x s : List Nat) (h : List.Forall₂ (· < ·) x s) (u : Nat)
    (hx : u < x.length) (hs : u < s.length) : x[u] < s[u] := by
  induction h generalizing u with
  | nil => simp at hx
  | cons h1 h2 ih =>
    cases u with
    | zero => simpa using h1
    | succ u2 => simpa using ih u2 (by simpa using hx) (by simpa using hs)

lemma zip_self_fst_eq_snd {α : Type} (l : List α) (q : α × α)
    (h : q ∈ List.zip l l) : q.1 = q.2 := by
  induction l with
  | nil => simp at h
  | cons a t ih =>
    rw [List.zip_cons_cons] at h
    rcases List.mem_cons.1 h with h1 | h1
    · rw [h1]
    · exact ih h1

lemma eqT_of_components {α : Type} [DecidableEq α] (t u : Tensor α)
    (hs : t._shape = u._shape) (hl : t._lst = u._lst) : t.eqT u = true := by
  rw [Tensor.eqT, if_neg (by simp [hs])]
  rw [List.all_eq_true]
  intro q hq
  rw [hl] at hq
  simpa using zip_self_fst_eq_snd _ q hq

/-- Claim C9: rearrange round-trip.  For every (constructible) tensor and
every permutation of its axis indices, rearranging by the permutation and then
by its inverse yields a tensor equal to the original under `__eq__`. -/
theorem rearrange_roundtrip {α : Type} [Inhabited α] [DecidableEq α]
    (t : Tensor α) (p : List Nat) (hWF : t.WF)
    (hp : p.Perm (List.range t.order)) :
    ∃ t2 t3, t.rearrange p = .ok t2 ∧
      t2.rearrange (invPerm p) = .ok t3 ∧ t3.eqT t = true := by
  obtain ⟨hne, hpos, hlst, hmul⟩ := hWF
  set s := t._shape with hs_def
  set n := s.length with hn_def
  have hp2 : p.Perm (List.range n) := hp
  have hplen : p.length = n := by simpa using hp2.length_eq
  have hmemp : ∀ x, x ∈ p ↔ x < n := fun x => by rw [hp2.mem_iff, List.mem_range]
  have hpnd : p.Nodup := hp2.nodup_iff.2 (List.nodup_range n)
  have hpentry : ∀ c (hc : c < p.length), p[c] < n :=
    fun c hc => (hmemp _).1 (List.getElem_mem _)
  set g := fun i => s.getD i 0 with hg_def
  set sp := p.map g with hsp_def
  -- first rearrange
  have h1 := rearrange_ok t p ⟨hne, hpos, hlst, hmul⟩ hp2
  set zeros := List.replicate n 0 with hzeros_def
  set F := fun j => t._lst.getD (rankIdx (scatter p j zeros) (spMuls s)) default
    with hF_def
  set lst2 := (enumIdx sp).map F with hlst2_def
  set t2 : Tensor α := ⟨lst2, sp, spMuls sp⟩ with ht2_def
  have hspos : ∀ d ∈ sp, 0 < d := by
    intro d hd
    obtain ⟨i, hip, rfl⟩ := List.mem_map.1 hd
    have hilt : i < n := (hmemp i).1 hip
    rw [hg_def]
    simp only
    rw [getD_eq_getElem_of_lt _ _ hilt]
    exact hpos _ (List.getElem_mem _)
  have hsplen : sp.length = n := by simp [hsp_def, hplen]
  have hspne : sp ≠ [] := by
    intro h
    have h2 : sp.length = 0 := by rw [h]; rfl
    rw [hsplen] at h2
    exact hne (List.length_eq_zero.1 h2)
  have hWF2 : t2.WF := by
    refine ⟨hspne, hspos, ?_, rfl⟩
    simp [ht2_def, hlst2_def, length_enumIdx]
  -- the s' entries at permuted positions
  have hsp_at : ∀ (c u : Nat), p[c]? = some u → sp[c]? = some (s.getD u 0) := by
    intro c u hc
    rw [hsp_def, List.getElem?_map, hc]
    rfl
  -- inverse permutation
  set q := invPerm p with hq_def
  have hqlen : q.length = n := by simp [hq_def, invPerm, hplen]
  have ht2order : t2.order = n := by simp [Tensor.order, ht2_def, hsplen]
  have hq2 : q.Perm (List.range t2.order) := by
    rw [ht2order]
    exact invPerm_perm p n hp2
  have hqnd : q.Nodup := hq2.nodup_iff.2 (List.nodup_range _)
  have hqspec : ∀ (u : Nat), u < n → ∃ tu, q[u]? = some tu ∧ pyIndex p u = some tu ∧
      p[tu]? = some u ∧ tu < n := by
    intro u hu
    obtain ⟨tu, htu⟩ := pyIndex_isSome_of_mem p u ((hmemp u).2 hu)
    refine ⟨tu, ?_, htu, pyIndex_getElem p u tu htu, hplen ▸ pyIndex_lt p u tu htu⟩
    rw [hq_def]
    exact invPerm_getElem p u tu (by omega) htu
  -- second rearrange
  have h3 := rearrange_ok t2 q hWF2 hq2
  set sq := q.map (fun i => t2._shape.getD i 0) with hsq_def
  set zeros2 := List.replicate t2._shape.length 0 with hzeros2_def
  set G := fun k => t2._lst.getD (rankIdx (scatter q k zeros2) (spMuls t2._shape)) default
    with hG_def
  set lst3 := (enumIdx sq).map G with hlst3_def
  refine ⟨t2, ⟨lst3, sq, spMuls sq⟩, h1, h3, ?_⟩
  -- shape round trip: sq = s
  have hsq_eq : sq = s := by
    apply List.ext_getElem?
    intro u
    rw [hsq_def, List.getElem?_map]
    by_cases hu : u < n
    · obtain ⟨tu, hqtu, _, hptu, htun⟩ := hqspec u hu
      rw [hqtu]
      have : t2._shape.getD tu 0 = s.getD u 0 := by
        show sp.getD tu 0 = s.getD u 0
        rw [List.getD_eq_getElem?_getD, hsp_at tu u hptu]
        rfl
      rw [List.getElem?_eq_getElem (by omega : u < s.length)]
      simp only [this, Option.map_some']
      rw [getD_eq_getElem_of_lt _ _ (by omega)]
    · rw [List.getElem?_eq_none (by omega), List.getElem?_eq_none (by omega)]
      rfl
  -- list round trip: lst3 = t._lst
  have hlst3_eq : lst3 = t._lst := by
    apply List.ext_getElem?
    intro r
    by_cases hr : r < prodL s
    · obtain ⟨j, hjr, hjf, hjrank⟩ := enumIdx_surj s hpos r hr
      have hjlen : j.length = n := hjf.length_eq
      -- σ = scatter q j zeros2 is a valid index of sp
      have hsigma_at : ∀ (c : Nat), c < n → ∀ (u : Nat), p[c]? = some u →
          (scatter q j zeros2)[c]? = j[u]? := by
        intro c hc u hcu
        have hun : u < n := by
          have : u ∈ p := by
            have := List.getElem?_eq_some_iff.1 hcu
            exact this.2 ▸ List.getElem_mem _
          exact (hmemp u).1 this
        obtain ⟨tu, hqtu, hpyu, hptu, htun⟩ := hqspec u hun
        have htuc : tu = c := by
          have h1 := pyIndex_of_getElem_nodup p u tu hpnd hptu
          have h2 := pyIndex_of_getElem_nodup p u c hpnd hcu
          rw [h1] at h2
          exact Option.some.inj h2
        subst htuc
        obtain ⟨ju, hju⟩ : ∃ ju, j[u]? = some ju :=
          ⟨_, List.getElem?_eq_getElem (by omega)⟩
        rw [hju]
        exact scatter_getElem_of_idx q j zeros2 hqnd u tu ju hqtu hju
          (by rw [hzeros2_def]; show tu < (List.replicate sp.length 0).length; simp [hsplen]; omega)
      have hsigma_f2 : List.Forall₂ (· < ·) (scatter q j zeros2) sp := by
        refine forall2_of_getD _ _ ?_ ?_
        · rw [scatter_length, hzeros2_def]
          show (List.replicate sp.length 0).length = sp.length
          simp
        · intro c hc
          have hcn : c < n := by rw [← hsplen]; exact hc
          have hcp : c < p.length := by omega
          have hpidx : p[c]? = some p[c] := List.getElem?_eq_getElem hcp
          have hun : p[c] < n := hpentry c hcp
          have huj : p[c] < j.length := by omega
          have hus : p[c] < s.length := by omega
          rw [List.getD_eq_getElem?_getD, hsigma_at c hcn p[c] hpidx,
            List.getElem?_eq_getElem huj, List.getD_eq_getElem?_getD,
            hsp_at c p[c] hpidx]
          simp only [Option.getD_some]
          rw [getD_eq_getElem_of_lt _ _ hus]
          exact forall2_getElem j s hjf p[c] huj hus
      have hranksig := rankIdx_lt _ _ hsigma_f2 hspos
      -- evaluate lst3 at r
      rw [hlst3_def, List.getElem?_map, hsq_eq, hjr]
      simp only [Option.map_some']
      rw [hG_def]
      simp only
      have hlst2_at : t2._lst.getD (rankIdx (scatter q j zeros2) (spMuls t2._shape)) default =
          F (scatter q j zeros2) := by
        show lst2.getD (rankIdx (scatter q j zeros2) (spMuls sp)) default = _
        rw [hlst2_def, List.getD_eq_getElem?_getD, List.getElem?_map]
        rw [getElem?_enumIdx_rank sp (scatter q j zeros2) hsigma_f2 hspos]
        rfl
      rw [hlst2_at, hF_def]
      simp only
      -- τ = scatter p σ zeros equals j
      have htau : scatter p (scatter q j zeros2) zeros = j := by
        apply List.ext_getElem?
        intro c
        by_cases hc : c < n
        · obtain ⟨tc, hqtc, hpyc, hptc, htcn⟩ := hqspec c hc
          have hsig_tc : (scatter q j zeros2)[tc]? = j[c]? := by
            have := hsigma_at tc (by omega) c hptc
            exact this
          obtain ⟨jc, hjc⟩ : ∃ jc, j[c]? = some jc :=
            ⟨_, List.getElem?_eq_getElem (by omega)⟩
          rw [hjc]
          refine scatter_getElem_of_idx p (scatter q j zeros2) zeros hpnd tc c jc
            hptc (by rw [hsig_tc]; exact hjc) (by rw [hzeros_def]; simp; omega)
        · rw [List.getElem?_eq_none, List.getElem?_eq_none]
          · omega
          · rw [scatter_length, hzeros_def]
            simp
            omega
      rw [htau, hjrank]
      rw [List.getD_eq_getElem?_getD,
        List.getElem?_eq_getElem (by rw [hlst]; exact hr)]
      rfl
    · rw [List.getElem?_eq_none, List.getElem?_eq_none]
      · rw [hlst]; omega
      · rw [hlst3_def]
        simp only [List.length_map, length_enumIdx, hsq_eq]
        omega
  exact eqT_of_components _ _ (by simpa using hsq_eq) (by simpa using hlst3_eq)

/-- Witness for C9 on a concrete 2 by 3 integer tensor and the transposition
of its two axes. -/
theorem rearrange_roundtrip_witness :
    ∃ t2 t3 : Tensor Int,
      Tensor.rearrange ⟨[1, 2, 3, 4, 5, 6], [2, 3], [3, 1]⟩ [1, 0] = .ok t2 ∧
      t2.rearrange (invPerm [1, 0]) = .ok t3 ∧
      t3.eqT ⟨[1, 2, 3, 4, 5, 6], [2, 3], [3, 1]⟩ = true :=
  rearrange_roundtrip ⟨[1, 2, 3, 4, 5, 6], [2, 3], [3, 1]⟩ [1, 0]
    ⟨by decide, by decide, by decide, by decide⟩ (by decide)


/-! ## Claim C10: element access does not validate per-axis bounds -/

/-- Claim C10: `__getitem__`/`__setitem__` locate the element purely by the
dot product of the key with the index multipliers.  Access with a key of the
right length succeeds whenever that flat offset is inside the buffer — no
per-axis check — and the concrete conjunct exhibits a 2 by 3 tensor where the
key `[0, 4]` (component 4 beyond axis size 3) silently reads, and overwrites,
the element at the different logical position `[1, 1]`.  Only a key of the
wrong length or a flat offset beyond the buffer raises an error. -/
theorem getItem_no_per_axis_bounds_check {α : Type} [Inhabited α]
    (t : Tensor α) (key : List Nat) (v : α) (hWF : t.WF) :
    (key.length = t._shape.length → rankIdx key t._idx_mul < t._lst.length →
      t.getItem key = .ok (t._lst.getD (rankIdx key t._idx_mul) default)) ∧
    (key.length ≠ t._shape.length → ∃ msg, t.getItem key = .error (.valueErr msg)) ∧
    (key.length = t._shape.length → t._lst.length ≤ rankIdx key t._idx_mul →
      t.getItem key = .error .indexErr) ∧
    (key.length = t._shape.length → rankIdx key t._idx_mul < t._lst.length →
      t.setItem key v = .ok { t with _lst := t._lst.set (rankIdx key t._idx_mul) v }) ∧
    (Tensor.getItem (⟨[1, 2, 3, 4, 5, 6], [2, 3], [3, 1]⟩ : Tensor Int) [0, 4] =
        .ok 5 ∧
      Tensor.getItem (⟨[1, 2, 3, 4, 5, 6], [2, 3], [3, 1]⟩ : Tensor Int) [1, 1] =
        .ok 5 ∧
      Tensor.setItem (⟨[1, 2, 3, 4, 5, 6], [2, 3], [3, 1]⟩ : Tensor Int) [0, 4] 99 =
        .ok ⟨[1, 2, 3, 4, 99, 6], [2, 3], [3, 1]⟩) := by
  obtain ⟨hne, hpos, hlst, hmul⟩ := hWF
  have hmullen : t._idx_mul.length = t._shape.length := by
    rw [hmul, spMuls_length]
  have hkne : key.length = t._shape.length → key ≠ [] := by
    intro hlen hk
    subst hk
    exact hne (List.length_eq_zero.1 (by simpa using hlen.symm))
  refine ⟨?_, ?_, ?_, ?_,
    by simp [Tensor.getItem, dotE, Except.pure, Except.bind, bind, pure],
    by simp [Tensor.getItem, dotE, Except.pure, Except.bind, bind, pure],
    by simp [Tensor.setItem, dotE, Except.pure, Except.bind, bind, pure]⟩
  · intro hlen hin
    rw [Tensor.getItem, dotE_ok key t._idx_mul (by omega) (hkne hlen)]
    simp only [Except.bind, bind]
    rw [List.getElem?_eq_getElem hin, List.getD_eq_getElem?_getD,
      List.getElem?_eq_getElem hin]
    rfl
  · intro hlen
    refine ⟨"Cannot take dot product of vectors with different dimensions", ?_⟩
    rw [Tensor.getItem]
    rw [show dotE key t._idx_mul = .error
      (.valueErr "Cannot take dot product of vectors with different dimensions") by
        rw [dotE, if_pos (by omega)]]
    rfl
  · intro hlen hout
    rw [Tensor.getItem, dotE_ok key t._idx_mul (by omega) (hkne hlen)]
    simp only [Except.bind, bind]
    rw [List.getElem?_eq_none hout]
  · intro hlen hin
    rw [Tensor.setItem, dotE_ok key t._idx_mul (by omega) (hkne hlen)]
    simp only [Except.bind, bind]
    rw [if_pos hin]

/-- Witness for C10: the concrete 2 by 3 tensor with the out-of-axis key. -/
theorem getItem_no_per_axis_bounds_check_witness :
    Tensor.getItem (⟨[1, 2, 3, 4, 5, 6], [2, 3], [3, 1]⟩ : Tensor Int) [0, 4] =
      .ok ((⟨[1, 2, 3, 4, 5, 6], [2, 3], [3, 1]⟩ : Tensor Int)._lst.getD
        (rankIdx [0, 4] [3, 1]) default) ∧
    (∃ msg, Tensor.getItem (⟨[1, 2, 3, 4, 5, 6], [2, 3], [3, 1]⟩ : Tensor Int) [0] =
      .error (.valueErr msg)) ∧
    Tensor.getItem (⟨[1, 2, 3, 4, 5, 6], [2, 3], [3, 1]⟩ : Tensor Int) [1, 5] =
      .error .indexErr := by
  have h := getItem_no_per_axis_bounds_check
    (⟨[1, 2, 3, 4, 5, 6], [2, 3], [3, 1]⟩ : Tensor Int) [0, 4] 99
    ⟨by decide, by decide, by decide, by decide⟩
  have h2 := getItem_no_per_axis_bounds_check
    (⟨[1, 2, 3, 4, 5, 6], [2, 3], [3, 1]⟩ : Tensor Int) [0] 99
    ⟨by decide, by decide, by decide, by decide⟩
  have h3 := getItem_no_per_axis_bounds_check
    (⟨[1, 2, 3, 4, 5, 6], [2, 3], [3, 1]⟩ : Tensor Int) [1, 5] 99
    ⟨by decide, by decide, by decide, by decide⟩
  exact ⟨h.1 (by decide) (by decide), h2.2.1 (by decide),
    h3.2.2.1 (by decide) (by decide)⟩


/-! ## C8: tensor shape-mismatch errors -/


lemma fromNested_ok {α : Type} (raw : Raw α) (dims : List Nat)
    (hdims : getSeqDims raw = .ok dims)
    (hfit : (Raw.flatten raw).length = prodL dims)
    (hne : dims ≠ []) (hpos : ∀ d ∈ dims, 0 < d) :
    fromNested raw = .ok ⟨raw.flatten, dims, spMuls dims⟩ := by
  rw [fromNested]
  rw [hdims]
  simp only [Except.bind, bind, pure, Except.pure]
  rw [if_neg (by omega)]
  rw [getIdxMultipliers_ok dims hne hpos]

lemma fromNested_not_square {α : Type} (raw : Raw α) (m : String)
    (hdims : getSeqDims raw = .error (.valueErr m)) :
    fromNested raw = .error (.tensorErr m) := by
  rw [fromNested, hdims]
  rfl

lemma fromNested_bad_count {α : Type} (raw : Raw α) (dims : List Nat)
    (hdims : getSeqDims raw = .ok dims)
    (hfit : (Raw.flatten raw).length ≠ prodL dims) :
    fromNested raw = .error (.tensorErr "Tensor cannot be fit into given shape") := by
  rw [fromNested, hdims]
  simp only [Except.bind, bind, pure, Except.pure]
  rw [if_pos hfit]

lemma addT_mismatch {α : Type} [Add α] (t u : Tensor α)
    (h : t._shape ≠ u._shape) :
    t.addT u = .error (.tensorErr "Tensors must have same shape") := by
  rw [Tensor.addT, if_pos h]

lemma addT_ok {α : Type} [Add α] (t u : Tensor α) (hWFt : t.WF)
    (h : t._shape = u._shape) (hlen : u._lst.length = t._lst.length) :
    t.addT u = .ok ⟨List.zipWith (· + ·) t._lst u._lst, t._shape, spMuls t._shape⟩ := by
  obtain ⟨hne, hpos, hlst, hmul⟩ := hWFt
  rw [Tensor.addT, if_neg (by simp [h])]
  exact fromFlat_ok _ _ (by rw [List.length_zipWith, hlen, Nat.min_self]; exact hlst)
    hne hpos

lemma smul_ok {α : Type} [Mul α] (t : Tensor α) (hWF : t.WF) (a : α) :
    t.smul a = .ok ⟨t._lst.map (fun x => a * x), t._shape, spMuls t._shape⟩ := by
  obtain ⟨hne, hpos, hlst, hmul⟩ := hWF
  rw [Tensor.smul]
  exact fromFlat_ok _ _ (by rw [List.length_map]; exact hlst) hne hpos

lemma subT_mismatch {α : Type} [Add α] [Mul α] [Neg α] [One α] (t u : Tensor α)
    (hWFu : u.WF) (h : t._shape ≠ u._shape) :
    t.subT u = .error (.tensorErr "Tensors must have same shape") := by
  rw [Tensor.subT]
  rw [smul_ok u hWFu (-1)]
  simp only [Except.bind, bind]
  exact addT_mismatch _ _ (by simpa using h)

lemma subT_ok {α : Type} [Add α] [Mul α] [Neg α] [One α] (t u : Tensor α)
    (hWFt : t.WF) (hWFu : u.WF) (h : t._shape = u._shape) :
    t.subT u = .ok ⟨List.zipWith (· + ·) t._lst (u._lst.map (fun x => -1 * x)),
      t._shape, spMuls t._shape⟩ := by
  obtain ⟨hneu, hposu, hlstu, hmulu⟩ := hWFu
  rw [Tensor.subT]
  rw [smul_ok u ⟨hneu, hposu, hlstu, hmulu⟩ (-1)]
  simp only [Except.bind, bind]
  exact addT_ok t _ hWFt (by simpa using h)
    (by rw [List.length_map, hlstu, hWFt.2.2.1, h])

lemma reshape_mismatch {α : Type} (t : Tensor α) (ns : List Nat)
    (hne : ns ≠ []) (h : t._lst.length ≠ prodL ns) :
    t.reshape ns = .error (.tensorErr "Tensor cannot be fit into given shape") := by
  rw [Tensor.reshape, fromFlat]
  rw [if_pos (by simp [h])]
  rw [if_neg (by simpa using hne)]

lemma reshape_ok {α : Type} (t : Tensor α) (ns : List Nat)
    (hne : ns ≠ []) (hpos : ∀ d ∈ ns, 0 < d) (h : t._lst.length = prodL ns) :
    t.reshape ns = .ok ⟨t._lst, ns, spMuls ns⟩ := by
  rw [Tensor.reshape]
  exact fromFlat_ok _ _ h hne hpos

/-! matrix construction through the nested constructor -/

lemma flattenL_map_leaf {α : Type} (r : List α) :
    flattenL (r.map Raw.leaf) = r := by
  induction r with
  | nil => rfl
  | cons x xs ih =>
    show Raw.flatten (Raw.leaf x) ++ flattenL (xs.map Raw.leaf) = x :: xs
    rw [ih]
    rfl

lemma flattenL_rows {α : Type} (rows : List (List α)) :
    flattenL (rows.map (fun r => Raw.node (r.map Raw.leaf))) = rows.flatten := by
  induction rows with
  | nil => rfl
  | cons r rs ih =>
    show Raw.flatten (Raw.node (r.map Raw.leaf)) ++ _ = _
    rw [show Raw.flatten (Raw.node (r.map Raw.leaf)) = flattenL (r.map Raw.leaf) by
      simp [Raw.flatten]]
    rw [flattenL_map_leaf, ih]
    rfl

lemma seqHasDimsL_leaves {α : Type} (r : List α) :
    seqHasDimsL (r.map Raw.leaf) ([] : List Nat) = .ok true := by
  induction r with
  | nil => rfl
  | cons x xs ih =>
    show seqHasDimsL (Raw.leaf x :: xs.map Raw.leaf) [] = .ok true
    rw [seqHasDimsL]
    rw [show seqHasDims (Raw.leaf x) ([] : List Nat) = .ok true from rfl]
    simpa using ih

lemma seqHasDimsL_rows {α : Type} (rows : List (List α)) (n : Nat)
    (hall : ∀ r ∈ rows, r.length = n) :
    seqHasDimsL (rows.map (fun r => Raw.node (r.map Raw.leaf))) [n] = .ok true := by
  induction rows with
  | nil => rfl
  | cons r rs ih =>
    show seqHasDimsL (Raw.node (r.map Raw.leaf) :: rs.map _) [n] = .ok true
    rw [seqHasDimsL]
    rw [show seqHasDims (Raw.node (r.map Raw.leaf)) [n] = .ok true by
      rw [seqHasDims, if_neg (by simp [hall r (by simp)])]
      exact seqHasDimsL_leaves r]
    simpa using ih (fun r2 h2 => hall r2 (by simp [h2]))

lemma getSeqDims_matrix {α : Type} (rows : List (List α)) (n : Nat)
    (hrne : rows ≠ []) (hnpos : 0 < n) (hall : ∀ r ∈ rows, r.length = n) :
    getSeqDims (Raw.node (rows.map (fun r => Raw.node (r.map Raw.leaf)))) =
      .ok [rows.length, n] := by
  obtain ⟨r0, rs, rfl⟩ : ∃ r0 rs, rows = r0 :: rs :=
    List.exists_cons_of_ne_nil hrne
  obtain ⟨x0, xs, rfl⟩ : ∃ x0 xs, r0 = x0 :: xs := by
    have := hall r0 (by simp)
    cases r0 with
    | nil => simp at this; omega
    | cons a b => exact ⟨a, b, rfl⟩
  have hlen : xs.length + 1 = n := by
    have := hall (x0 :: xs) (by simp)
    simpa using this
  have hchain : firstChainDims
      (Raw.node (((x0 :: xs) :: rs).map (fun r => Raw.node (r.map Raw.leaf)))) =
      [((x0 :: xs) :: rs).length, n] := by
    simp [firstChainDims, hlen]
  rw [getSeqDims, hchain]
  rw [show seqHasDims (Raw.node (((x0 :: xs) :: rs).map (fun r => Raw.node (r.map Raw.leaf))))
      [((x0 :: xs) :: rs).length, n] = .ok true by
    rw [show seqHasDims (Raw.node (((x0 :: xs) :: rs).map (fun r => Raw.node (r.map Raw.leaf))))
        [((x0 :: xs) :: rs).length, n] =
        if (((x0 :: xs) :: rs).map (fun r => Raw.node (r.map Raw.leaf))).length ≠
            ((x0 :: xs) :: rs).length then Except.ok false
        else seqHasDimsL (((x0 :: xs) :: rs).map (fun r => Raw.node (r.map Raw.leaf))) [n]
      by simp [seqHasDims]]
    rw [if_neg (by simp)]
    exact seqHasDimsL_rows _ n hall]
  rfl

lemma flatten_rows_length {α : Type} (rows : List (List α)) (n : Nat)
    (hall : ∀ r ∈ rows, r.length = n) :
    (Raw.flatten (Raw.node (rows.map (fun r => Raw.node (r.map Raw.leaf))))).length =
      rows.length * n := by
  rw [show Raw.flatten (Raw.node (rows.map (fun r => Raw.node (r.map Raw.leaf)))) =
    flattenL (rows.map (fun r => Raw.node (r.map Raw.leaf))) by simp [Raw.flatten]]
  rw [flattenL_rows, List.length_flatten]
  induction rows with
  | nil => simp
  | cons r rs ih =>
    simp only [List.map_cons, List.sum_cons, hall r (by simp)]
    rw [ih (fun r2 h2 => hall r2 (by simp [h2])), List.length_cons]
    ring

lemma fromNested_matrix {α : Type} (rows : List (List α)) (n : Nat)
    (hrne : rows ≠ []) (hnpos : 0 < n) (hall : ∀ r ∈ rows, r.length = n) :
    fromNested (Raw.node (rows.map (fun r => Raw.node (r.map Raw.leaf)))) =
      .ok ⟨rows.flatten, [rows.length, n], spMuls [rows.length, n]⟩ := by
  have h1 := fromNested_ok (Raw.node (rows.map (fun r => Raw.node (r.map Raw.leaf))))
    [rows.length, n] (getSeqDims_matrix rows n hrne hnpos hall)
    (by rw [flatten_rows_length rows n hall]
        show _ = prodL [rows.length, n]
        rw [prodL_cons, prodL_cons, prodL_nil]
        ring)
    (by simp)
    (by intro d hd
        simp only [List.mem_cons, List.mem_singleton] at hd
        rcases hd with rfl | rfl | h
        · rcases List.exists_cons_of_ne_nil hrne with ⟨r0, rs, rfl⟩
          simp
        · exact hnpos
        · simp at h)
  rw [h1]
  rw [show Raw.flatten (Raw.node (rows.map (fun r => Raw.node (r.map Raw.leaf)))) =
    flattenL (rows.map (fun r => Raw.node (r.map Raw.leaf))) by simp [Raw.flatten]]
  rw [flattenL_rows]

lemma matmul_mismatch {α : Type} [Mul α] [AddCommMonoid α] (t u : Tensor α)
    (h : t.n ≠ u.m) :
    t.matmul u = .error (.tensorErr "Tensors must have compatible shape") := by
  rw [Tensor.matmul, if_pos h]

lemma matmul_matrices_ok {α : Type} [Inhabited α] [Mul α] [AddCommMonoid α]
    (t u : Tensor α) (a b c : Nat) (hWFt : t.WF) (hWFu : u.WF)
    (ht : t._shape = [a, b]) (hu : u._shape = [b, c]) :
    ∃ r, t.matmul u = .ok r ∧ r._shape = [a, c] ∧ r._lst.length = a * c := by
  have hpa : 0 < a := hWFt.2.1 a (by rw [ht]; simp)
  have hpb : 0 < b := hWFt.2.1 b (by rw [ht]; simp)
  have hpc : 0 < c := hWFu.2.1 c (by rw [hu]; simp)
  have htn : t.n = b := by rw [Tensor.n, ht]; simp
  have hum : u.m = b := by rw [Tensor.m, hu]; simp
  have htm : t.m = a := by rw [Tensor.m, ht]; simp
  have hun : u.n = c := by rw [Tensor.n, hu]; simp
  have key : t.matmul u = .ok ⟨((List.range a).map (fun i => (List.range c).map (fun k =>
      ((List.range b).map (fun j =>
        t._lst.getD (rankIdx [i, j] (spMuls [a, b])) default *
        u._lst.getD (rankIdx [j, k] (spMuls [b, c])) default)).sum))).flatten,
      [a, c], spMuls [a, c]⟩ := by
    rw [Tensor.matmul]
    rw [if_neg (by rw [htn, hum]; simp)]
    have hrows : (List.range t.m).mapM (fun i => do
        let row ← (List.range u.n).mapM (fun k => do
          let terms ← (List.range t.n).mapM (fun j => do
            let x ← t.getItem [i, j]
            let y ← u.getItem [j, k]
            pure (x * y))
          pure terms.sum)
        pure (Raw.node (row.map Raw.leaf))) =
      .ok ((List.range t.m).map (fun i => Raw.node (((List.range c).map (fun k =>
        ((List.range b).map (fun j =>
          t._lst.getD (rankIdx [i, j] (spMuls [a, b])) default *
          u._lst.getD (rankIdx [j, k] (spMuls [b, c])) default)).sum)).map Raw.leaf))) := by
      apply mapM_ok_map
      intro i hi
      rw [htm] at hi
      have hi2 : i < a := by simpa using hi
      have hrow : (List.range u.n).mapM (fun k => do
          let terms ← (List.range t.n).mapM (fun j => do
            let x ← t.getItem [i, j]
            let y ← u.getItem [j, k]
            pure (x * y))
          pure terms.sum) =
        .ok ((List.range c).map (fun k =>
          ((List.range b).map (fun j =>
            t._lst.getD (rankIdx [i, j] (spMuls [a, b])) default *
            u._lst.getD (rankIdx [j, k] (spMuls [b, c])) default)).sum)) := by
        rw [hun]
        apply mapM_ok_map
        intro k hk
        have hk2 : k < c := by simpa using hk
        have hterms : (List.range t.n).mapM (fun j => do
            let x ← t.getItem [i, j]
            let y ← u.getItem [j, k]
            pure (x * y)) =
          .ok ((List.range b).map (fun j =>
            t._lst.getD (rankIdx [i, j] (spMuls [a, b])) default *
            u._lst.getD (rankIdx [j, k] (spMuls [b, c])) default)) := by
          rw [htn]
          apply mapM_ok_map
          intro j hj
          have hj2 : j < b := by simpa using hj
          rw [show t.getItem [i, j] =
              .ok (t._lst.getD (rankIdx [i, j] (spMuls [a, b])) default) by
            have h9 := getItem_ok t hWFt [i, j] (by rw [ht]; rfl)
              (by rw [ht]
                  exact List.Forall₂.cons hi2 (List.Forall₂.cons hj2 List.Forall₂.nil))
            rwa [ht] at h9]
          rw [show u.getItem [j, k] =
              .ok (u._lst.getD (rankIdx [j, k] (spMuls [b, c])) default) by
            have h9 := getItem_ok u hWFu [j, k] (by rw [hu]; rfl)
              (by rw [hu]
                  exact List.Forall₂.cons hj2 (List.Forall₂.cons hk2 List.Forall₂.nil))
            rwa [hu] at h9]
          rfl
        rw [hterms]
        rfl
      rw [hrow]
      rfl
    rw [hrows]
    rw [htm]
    simp only [Except.bind, bind]
    rw [show (List.range a).map (fun i => Raw.node (((List.range c).map (fun k =>
        ((List.range b).map (fun j =>
          t._lst.getD (rankIdx [i, j] (spMuls [a, b])) default *
          u._lst.getD (rankIdx [j, k] (spMuls [b, c])) default)).sum)).map Raw.leaf)) =
      ((List.range a).map (fun i => (List.range c).map (fun k =>
        ((List.range b).map (fun j =>
          t._lst.getD (rankIdx [i, j] (spMuls [a, b])) default *
          u._lst.getD (rankIdx [j, k] (spMuls [b, c])) default)).sum))).map
        (fun r => Raw.node (r.map Raw.leaf)) by rw [List.map_map]; rfl]
    rw [fromNested_matrix _ c (by simp [List.range_eq_nil]; omega) hpc ?hall]
    case hall =>
      intro r hr
      simp only [List.mem_map, List.mem_range] at hr
      obtain ⟨i, _, rfl⟩ := hr
      simp
    simp
  refine ⟨_, key, rfl, ?_⟩
  rw [List.length_flatten, List.map_map]
  rw [show ((List.map (List.length ∘ fun i => (List.range c).map (fun k =>
      ((List.range b).map (fun j =>
        t._lst.getD (rankIdx [i, j] (spMuls [a, b])) default *
        u._lst.getD (rankIdx [j, k] (spMuls [b, c])) default)).sum)) (List.range a))) =
    List.replicate a c by
      rw [show (List.length ∘ fun i => (List.range c).map (fun k =>
          ((List.range b).map (fun j =>
            t._lst.getD (rankIdx [i, j] (spMuls [a, b])) default *
            u._lst.getD (rankIdx [j, k] (spMuls [b, c])) default)).sum)) =
        (fun _ => c) from funext (fun i => by simp)]
      rw [List.map_const']
      simp]
  rw [List.sum_replicate]
  simp [Nat.smul_one_eq_cast]

/-- C8 counterexample: the constructor checks dimensions only along the chain
of first children, so the ragged nested sequence `[1, [2]]` — which is not
rectangular (`Raw.rectDims` finds no dimension vector for it) — is accepted
without a `TensorError` and silently flattened into a shape-`[2]` tensor. -/
theorem fromNested_accepts_ragged_input :
    fromNested (Raw.node [Raw.leaf (1 : Int), Raw.node [Raw.leaf 2]]) =
      .ok ⟨[1, 2], [2], [1]⟩ ∧
    Raw.rectDims (Raw.node [Raw.leaf (1 : Int), Raw.node [Raw.leaf 2]]) = none := by
  constructor
  · simp [fromNested, getSeqDims, firstChainDims, seqHasDims, seqHasDimsL,
      Raw.flatten, flattenL, prodL, getIdxMultipliers, getIdxMultipliers.go,
      spMuls, Except.pure, Except.bind, bind, pure]
  · simp [Raw.rectDims, rectDimsL]

/-- C8 (amended): shape mismatches are fatal `TensorError`s, but the
construction-time check is weaker than rectangularity: `fromNested` fails
exactly when the first-chain dimension check fails or the flattened element
count disagrees with the first-chain product, and otherwise succeeds (on
positive dimensions); add and subtract fail on unequal shapes and succeed on
equal ones; matmul fails when the inner dimensions disagree and succeeds on
conforming matrices; reshape fails when the element counts disagree and
succeeds otherwise.  No truncation or broadcasting happens anywhere: every
success case returns exactly the elementwise or contracted values. -/
theorem tensor_shape_mismatch_errors {α : Type} [Inhabited α] [Mul α] [Neg α]
    [One α] [AddCommMonoid α] (t u : Tensor α) (raw : Raw α)
    (dims ns : List Nat) (msg : String) (a b c : Nat) :
    (getSeqDims raw = .error (.valueErr msg) →
      fromNested raw = .error (.tensorErr msg)) ∧
    (getSeqDims raw = .ok dims → (Raw.flatten raw).length ≠ prodL dims →
      fromNested raw = .error (.tensorErr "Tensor cannot be fit into given shape")) ∧
    (getSeqDims raw = .ok dims → (Raw.flatten raw).length = prodL dims →
      dims ≠ [] → (∀ d ∈ dims, 0 < d) →
      fromNested raw = .ok ⟨raw.flatten, dims, spMuls dims⟩) ∧
    (t._shape ≠ u._shape →
      t.addT u = .error (.tensorErr "Tensors must have same shape")) ∧
    (t.WF → t._shape = u._shape → u._lst.length = t._lst.length →
      t.addT u = .ok ⟨List.zipWith (· + ·) t._lst u._lst, t._shape, spMuls t._shape⟩) ∧
    (u.WF → t._shape ≠ u._shape →
      t.subT u = .error (.tensorErr "Tensors must have same shape")) ∧
    (t.WF → u.WF → t._shape = u._shape →
      t.subT u = .ok ⟨List.zipWith (· + ·) t._lst (u._lst.map (fun x => -1 * x)),
        t._shape, spMuls t._shape⟩) ∧
    (t.n ≠ u.m →
      t.matmul u = .error (.tensorErr "Tensors must have compatible shape")) ∧
    (t.WF → u.WF → t._shape = [a, b] → u._shape = [b, c] →
      ∃ r, t.matmul u = .ok r ∧ r._shape = [a, c] ∧ r._lst.length = a * c) ∧
    (ns ≠ [] → t._lst.length ≠ prodL ns →
      t.reshape ns = .error (.tensorErr "Tensor cannot be fit into given shape")) ∧
    (ns ≠ [] → (∀ d ∈ ns, 0 < d) → t._lst.length = prodL ns →
      t.reshape ns = .ok ⟨t._lst, ns, spMuls ns⟩) :=
  ⟨fromNested_not_square raw msg,
   fromNested_bad_count raw dims,
   fun h1 h2 h3 h4 => fromNested_ok raw dims h1 h2 h3 h4,
   addT_mismatch t u,
   fun hW h hl => addT_ok t u hW h hl,
   fun hWu h => subT_mismatch t u hWu h,
   fun hWt hWu h => subT_ok t u hWt hWu h,
   matmul_mismatch t u,
   fun hWt hWu h1 h2 => matmul_matrices_ok t u a b c hWt hWu h1 h2,
   fun h1 h2 => reshape_mismatch t ns h1 h2,
   fun h1 h2 h3 => reshape_ok t ns h1 h2 h3⟩

theorem tensor_shape_mismatch_errors_witness :
    fromNested (Raw.node [Raw.node [Raw.leaf (1 : Int)],
        Raw.node [Raw.leaf 2, Raw.leaf 3]]) =
      .error (.tensorErr "Sequence dimensions are not square") ∧
    fromNested (Raw.node [Raw.leaf (1 : Int), Raw.node [Raw.leaf 2, Raw.leaf 3]]) =
      .error (.tensorErr "Tensor cannot be fit into given shape") ∧
    fromNested (Raw.node [Raw.leaf (1 : Int), Raw.leaf 2]) =
      .ok ⟨[1, 2], [2], [1]⟩ ∧
    (⟨[1, 2, 3, 4, 5, 6], [2, 3], [3, 1]⟩ : Tensor Int).addT
        ⟨[1, 2, 3, 4, 5, 6], [3, 2], [2, 1]⟩ =
      .error (.tensorErr "Tensors must have same shape") ∧
    (⟨[1, 2, 3, 4, 5, 6], [2, 3], [3, 1]⟩ : Tensor Int).addT
        ⟨[10, 20, 30, 40, 50, 60], [2, 3], [3, 1]⟩ =
      .ok ⟨[11, 22, 33, 44, 55, 66], [2, 3], [3, 1]⟩ ∧
    (⟨[1, 2, 3, 4, 5, 6], [2, 3], [3, 1]⟩ : Tensor Int).subT
        ⟨[1, 2, 3, 4, 5, 6], [3, 2], [2, 1]⟩ =
      .error (.tensorErr "Tensors must have same shape") ∧
    (⟨[1, 2, 3, 4, 5, 6], [2, 3], [3, 1]⟩ : Tensor Int).subT
        ⟨[10, 20, 30, 40, 50, 60], [2, 3], [3, 1]⟩ =
      .ok ⟨[-9, -18, -27, -36, -45, -54], [2, 3], [3, 1]⟩ ∧
    (⟨[1, 2, 3, 4, 5, 6], [2, 3], [3, 1]⟩ : Tensor Int).matmul
        ⟨[1, 2, 3, 4, 5, 6], [2, 3], [3, 1]⟩ =
      .error (.tensorErr "Tensors must have compatible shape") ∧
    (∃ r, (⟨[1, 2, 3, 4, 5, 6], [2, 3], [3, 1]⟩ : Tensor Int).matmul
        ⟨[1, 2, 3, 4, 5, 6], [3, 2], [2, 1]⟩ =
      .ok r ∧ r._shape = [2, 2] ∧ r._lst.length = 4) ∧
    (⟨[1, 2, 3, 4, 5, 6], [2, 3], [3, 1]⟩ : Tensor Int).reshape [4] =
      .error (.tensorErr "Tensor cannot be fit into given shape") ∧
    (⟨[1, 2, 3, 4, 5, 6], [2, 3], [3, 1]⟩ : Tensor Int).reshape [6] =
      .ok ⟨[1, 2, 3, 4, 5, 6], [6], [1]⟩ := by
  have hA := @tensor_shape_mismatch_errors Int _ _ _ _ _
    ⟨[1, 2, 3, 4, 5, 6], [2, 3], [3, 1]⟩ ⟨[1, 2, 3, 4, 5, 6], [3, 2], [2, 1]⟩
    (Raw.node [Raw.node [Raw.leaf 1], Raw.node [Raw.leaf 2, Raw.leaf 3]])
    [2] [4] "Sequence dimensions are not square" 2 3 2
  have hB := @tensor_shape_mismatch_errors Int _ _ _ _ _
    ⟨[1, 2, 3, 4, 5, 6], [2, 3], [3, 1]⟩ ⟨[10, 20, 30, 40, 50, 60], [2, 3], [3, 1]⟩
    (Raw.node [Raw.leaf 1, Raw.node [Raw.leaf 2, Raw.leaf 3]])
    [2] [6] "" 0 0 0
  have hC := @tensor_shape_mismatch_errors Int _ _ _ _ _
    ⟨[1, 2, 3, 4, 5, 6], [2, 3], [3, 1]⟩ ⟨[1, 2, 3, 4, 5, 6], [2, 3], [3, 1]⟩
    (Raw.node [Raw.leaf 1, Raw.leaf 2]) [2] [4] "" 0 0 0
  refine ⟨hA.1 (by rfl), hB.2.1 (by rfl) (by decide), ?_, hA.2.2.2.1 (by decide),
    ?_, hA.2.2.2.2.2.1 ⟨by decide, by decide, by decide, by decide⟩ (by decide),
    ?_, hC.2.2.2.2.2.2.2.1 (by decide), hA.2.2.2.2.2.2.2.2.1
      ⟨by decide, by decide, by decide, by decide⟩
      ⟨by decide, by decide, by decide, by decide⟩ rfl rfl,
    hA.2.2.2.2.2.2.2.2.2.1 (by decide) (by decide),
    ?_⟩
  · rw [hC.2.2.1 (by rfl) (by decide) (by decide) (by decide)]
    rfl
  · rw [hB.2.2.2.2.1 ⟨by decide, by decide, by decide, by decide⟩ rfl rfl]
    rfl
  · rw [hB.2.2.2.2.2.2.1 ⟨by decide, by decide, by decide, by decide⟩
      ⟨by decide, by decide, by decide, by decide⟩ rfl]
    rfl
  · rw [hB.2.2.2.2.2.2.2.2.2.2 (by decide) (by decide) (by decide)]
    rfl

end Ambulo
